import Mathlib

/-!
Verification of the umbrella sensor-streaming protocol.

This file gives a shallow embedding of the core of the repository:

* the IMA-ADPCM codec — device-side encoder `encodeADPCMSample`
  (firmware, lib-02-audio.ino) and host-side decoder `decodeADPCMNibble`
  (web/audio.js `_decodeADPCMNibble`);
* the device-side audio packet assembler `audioProcessSample`;
* the host-side loss-tolerant reconstructor `parseSamples` together with
  `_interpolateGap` (web/audio.js);
* the thermal quantizer (firmware `thermalSendFrame`, host
  `parseThermalFrame` in web/serial.js);
* the host-side serial frame demultiplexer `processBuffer`
  (web/serial.js).

Modelling conventions:

* machine integers are modelled as `Nat`/`Int`; where C stores a value in
  `int16_t` (so that an out-of-range assignment wraps modulo 2^16 before
  any later clamp), the wrap is modelled explicitly by `wrap16`;
* `x & 0xFF` / `(x >> 8) & 0xFF` on non-negative machine integers are
  modelled as `% 256` / `/ 256 % 256`; for possibly negative `int16_t`
  values the two's-complement byte extraction is `int16LoByte`/`int16HiByte`;
* JavaScript `Math.cos`, `Math.sin` and `Math.random` inside
  `_interpolateGap` are modelled as oracle parameters (`MathOracle`): the
  theorems about the interpolator hold for every oracle, and witnesses
  instantiate a concrete one.  All other JS number arithmetic in the
  modelled code paths is integer-valued and is modelled exactly;
* JS strings produced by `TextDecoder` are modelled at the byte level;
  the ASCII prefix tests (`startsWith("btn:")` …) coincide with the
  byte-level tests for the lines the protocol produces.
-/

/-! ### IMA ADPCM tables

`STEP_TABLE` / `INDEX_TABLE` are the host-side tables from web/audio.js;
`adpcmStepTable` / `adpcmIndexTable` are the device-side tables from
lib-02-audio.ino.  They are transcribed separately from the two sources.
-/

def STEP_TABLE : List Nat := [
  7, 8, 9, 10, 11, 12, 13, 14, 16, 17, 19, 21, 23, 25, 28, 31, 34, 37, 41, 45, 50, 55, 60, 66, 73, 80, 88, 97, 107, 118, 130, 143, 157, 173, 190, 209, 230, 253,
  279, 307, 337, 371, 408, 449, 494, 544, 598, 658, 724, 796, 876, 963, 1060, 1166, 1282, 1411, 1552, 1707, 1878, 2066, 2272, 2499, 2749, 3024, 3327, 3660,
  4026, 4428, 4871, 5358, 5894, 6484, 7132, 7845, 8630, 9493, 10442, 11487, 12635, 13899, 15289, 16818, 18500, 20350, 22385, 24623, 27086, 29794, 32767]

def INDEX_TABLE : List Int := [-1, -1, -1, -1, 2, 4, 6, 8, -1, -1, -1, -1, 2, 4, 6, 8]

def adpcmStepTable : List Nat := [
    7, 8, 9, 10, 11, 12, 13, 14, 16, 17, 19, 21, 23, 25, 28, 31,
    34, 37, 41, 45, 50, 55, 60, 66, 73, 80, 88, 97, 107, 118, 130,
    143, 157, 173, 190, 209, 230, 253, 279, 307, 337, 371, 408, 449,
    494, 544, 598, 658, 724, 796, 876, 963, 1060, 1166, 1282, 1411,
    1552, 1707, 1878, 2066, 2272, 2499, 2749, 3024, 3327, 3660, 4026,
    4428, 4871, 5358, 5894, 6484, 7132, 7845, 8630, 9493, 10442, 11487,
    12635, 13899, 15289, 16818, 18500, 20350, 22385, 24623, 27086, 29794, 32767]

def adpcmIndexTable : List Int := [
    -1, -1, -1, -1, 2, 4, 6, 8,
    -1, -1, -1, -1, 2, 4, 6, 8]

/-- The codec state shared in shape by encoder and decoder:
`predicted` is the running predictor, `index` the step-table index. -/
structure AdpcmState where
  predicted : Int
  index : Int
deriving Repr, DecidableEq

/-- Conversion of an `int` value to the `int16_t` it is stored as
(two's-complement wrap modulo 2^16). -/
def wrap16 (x : Int) : Int := (x + 32768).emod 65536 - 32768

/-- Host-side `_decodeADPCMNibble` (web/audio.js lines 84-110).
JS numbers hold the exact integer values here, so no wrap is applied. -/
def decodeADPCMNibble (s : AdpcmState) (nibble : Nat) : Int × AdpcmState :=
  let step := STEP_TABLE.getD s.index.toNat 0
  -- let delta = step >> 3; plus the three conditional contributions
  let delta : Nat := step / 8
  let delta := if nibble &&& 4 ≠ 0 then delta + step else delta
  let delta := if nibble &&& 2 ≠ 0 then delta + step / 2 else delta
  let delta := if nibble &&& 1 ≠ 0 then delta + step / 4 else delta
  -- apply sign and update predictor
  let p := if nibble &&& 8 ≠ 0 then s.predicted - delta else s.predicted + delta
  -- clamp predictor
  let p := if p > 32767 then 32767 else p
  let p := if p < -32768 then -32768 else p
  -- update index
  let i := s.index + INDEX_TABLE.getD nibble 0
  let i := if i < 0 then 0 else i
  let i := if i > 88 then 88 else i
  (p, ⟨p, i⟩)

/-- Device-side `encodeADPCMSample` (lib-02-audio.ino lines 61-94).
`adpcmPredicted` is an `int16_t` global: the assignments
`adpcmPredicted -= delta` / `+= delta` convert the intermediate `int`
value back to `int16_t`, wrapping modulo 2^16 *before* the clamp runs;
this is modelled by `wrap16`. -/
def encodeADPCMSample (s : AdpcmState) (sample : Int) : Nat × AdpcmState :=
  let step := adpcmStepTable.getD s.index.toNat 0
  let diff : Int := sample - s.predicted
  let nibble : Nat := if diff < 0 then 8 else 0
  let diff : Int := if diff < 0 then -diff else diff
  let nibble := if diff ≥ (step : Int) then nibble ||| 4 else nibble
  let diff := if diff ≥ (step : Int) then diff - step else diff
  let nibble := if diff ≥ ((step / 2 : Nat) : Int) then nibble ||| 2 else nibble
  let diff := if diff ≥ ((step / 2 : Nat) : Int) then diff - (step / 2 : Nat) else diff
  let nibble := if diff ≥ ((step / 4 : Nat) : Int) then nibble ||| 1 else nibble
  -- update predictor: reconstruct delta from the nibble
  let delta : Nat := step / 8
  let delta := if nibble &&& 4 ≠ 0 then delta + step else delta
  let delta := if nibble &&& 2 ≠ 0 then delta + step / 2 else delta
  let delta := if nibble &&& 1 ≠ 0 then delta + step / 4 else delta
  let p := if nibble &&& 8 ≠ 0 then wrap16 (s.predicted - delta) else wrap16 (s.predicted + delta)
  -- clamp predictor (runs on the already-wrapped int16_t value)
  let p := if p > 32767 then 32767 else p
  let p := if p < -32768 then -32768 else p
  -- update index
  let i := s.index + adpcmIndexTable.getD nibble 0
  let i := if i < 0 then 0 else i
  let i := if i > 88 then 88 else i
  (nibble, ⟨p, i⟩)

/-- C1: the encoder/decoder bit-identity claim fails on the code.  From
the in-range state (predictor 0, stepIndex 88), encoding the 16-bit
sample -32768 yields nibble 12 but leaves the encoder at predictor 28674
(the `int16_t` predictor wraps before the clamp), while the host decoder
applied to nibble 12 from the same state clamps to -32768: the two state
trajectories diverge. -/
theorem C1_encoder_decoder_bit_identity_fails :
    encodeADPCMSample ⟨0, 88⟩ (-32768) = (12, ⟨28674, 88⟩) ∧
    decodeADPCMNibble ⟨0, 88⟩ 12 = (-32768, ⟨-32768, 88⟩) ∧
    ((28674 : Int), (88 : Int)) ≠ ((-32768 : Int), (88 : Int)) := by
  refine ⟨by decide, by decide, by decide⟩

/-! ### Host-side loss-tolerant reconstructor (web/audio.js `AudioProcessor`) -/

/-- `AudioProcessor.SAMPLES_PER_PACKET`. -/
def SAMPLES_PER_PACKET : Nat := 118

/-- The mutable fields of `AudioProcessor` used by `parseSamples`. -/
structure ProcState where
  adpcmPredicted : Int
  adpcmIndex : Int
  expectedSeq : Nat
  lastSample : Int
  droppedPackets : Nat
  totalPackets : Nat
  totalSamplesDecoded : Nat
deriving Repr, DecidableEq

/-- The decoder state after `startRecording` resets it. -/
def resetState : ProcState := ⟨0, 0, 0, 0, 0, 0, 0⟩

/-- Oracle for the transcendental/random JS functions used by
`_interpolateGap`: `cosPi t` models `Math.cos(t * Math.PI)`, `sinPi t`
models `Math.sin(t * Math.PI)`, and `rand i` models the `Math.random()`
draw of loop iteration `i`. -/
structure MathOracle where
  cosPi : ℚ → ℚ
  sinPi : ℚ → ℚ
  rand : Nat → ℚ

/-- A concrete oracle (used to evaluate the model on explicit inputs). -/
def constOracle : MathOracle := ⟨fun _ => 1, fun _ => 0, fun _ => 1/2⟩

/-- JS `Math.round`: round half toward positive infinity. -/
def jsRound (q : ℚ) : Int := ⌊q + 1/2⌋

/-- `_interpolateGap` (web/audio.js lines 119-149): cosine interpolation
from `lastSample` to `nextFirstSample` plus amplitude-scaled comfort
noise, clamped to the 16-bit range and rounded. -/
def interpolateGap (o : MathOracle) (lastSample : Int) (gapPackets : Nat)
    (nextFirstSample : Int) : List Int :=
  let missingSamples := gapPackets * SAMPLES_PER_PACKET
  let startSample : ℚ := lastSample
  let endSample : ℚ := nextFirstSample
  let amplitude : ℚ := |startSample - endSample| / 2
  let noiseLevel : ℚ := min (amplitude * (3/10)) 500
  (List.range missingSamples).map (fun (i : Nat) =>
    let t : ℚ := ((i : ℚ) + 1) / ((missingSamples : ℚ) + 1)
    let cosT : ℚ := (1 - o.cosPi t) / 2
    let sample : ℚ := startSample * (1 - cosT) + endSample * cosT
    let noiseEnvelope : ℚ := o.sinPi t
    let noise : ℚ := (o.rand i - 1/2) * 2 * noiseLevel * noiseEnvelope
    jsRound (max (-32768) (min 32767 (sample + noise))))

/-- Nibble unpacking of the ADPCM data bytes: low nibble (`byte & 0x0f`,
i.e. `b % 16`) first, then high nibble (`(byte >> 4) & 0x0f`, i.e.
`b / 16 % 16`). -/
def bytesToNibbles : List Nat → List Nat
  | [] => []
  | b :: bs => (b % 16) :: (b / 16 % 16) :: bytesToNibbles bs

/-- The decode loop of `parseSamples` over a nibble sequence, threading
the decoder state through `_decodeADPCMNibble`. -/
def decodeADPCMSeq (s : AdpcmState) : List Nat → List Int × AdpcmState
  | [] => ([], s)
  | n :: ns =>
    let r := decodeADPCMNibble s n
    let rest := decodeADPCMSeq r.2 ns
    (r.1 :: rest.1, rest.2)

/-- `dataView.getUint16(0, true)`: the packet sequence number. -/
def seqOf (pkt : List Nat) : Nat := pkt.getD 0 0 + 256 * pkt.getD 1 0

/-- `dataView.getInt16(2, true)`: the packet's embedded predictor. -/
def packetPredictedOf (pkt : List Nat) : Int :=
  let u := pkt.getD 2 0 + 256 * pkt.getD 3 0
  if 32768 ≤ u then (u : Int) - 65536 else (u : Int)

/-- `dataView.getUint8(4)`: the packet's embedded step index. -/
def packetIndexOf (pkt : List Nat) : Int := pkt.getD 4 0

/-- The ADPCM data bytes of a packet (`HEADER_SIZE = 5` bytes skipped). -/
def packetNibbles (pkt : List Nat) : List Nat := bytesToNibbles (pkt.drop 5)

/-- The decode phase of `parseSamples` (web/audio.js lines 179-194): the
decoder state is overwritten with the packet header's
(`packetPredicted`, `packetIndex`) and all nibbles are decoded. -/
def packetDecode (pkt : List Nat) : List Int × AdpcmState :=
  decodeADPCMSeq ⟨packetPredictedOf pkt, packetIndexOf pkt⟩ (packetNibbles pkt)

/-- The decoded PCM samples of a packet: a function of the packet alone. -/
def decodePacket (pkt : List Nat) : List Int := (packetDecode pkt).1

/-- The ADPCM state left behind by decoding a packet: a function of the
packet alone. -/
def adpcmAfterPacket (pkt : List Nat) : AdpcmState := (packetDecode pkt).2

/-- `gap = (seq - expectedSeq + 65536) % 65536` (JS `%` is truncating,
hence `Int.tmod`; both agree here since the dividend is non-negative for
reachable states). -/
def gapOf (s : ProcState) (pkt : List Nat) : Int :=
  ((seqOf pkt : Int) - (s.expectedSeq : Int) + 65536).tmod 65536

/-- The common tail of `parseSamples` (web/audio.js lines 223-235):
update `expectedSeq` (JS `(seq + 1) & 0xffff`, i.e. `% 65536`), append
the decoded samples after the `pre` (interpolated) ones, bump the decoded
counter, and remember the packet's last decoded sample. -/
def parseFinish (s : ProcState) (seq : Nat) (decodedSamples : List Int)
    (adpcmAfter : AdpcmState) (pre : List Int) (dropped : Nat) :
    List Int × ProcState :=
  (pre ++ decodedSamples,
   { adpcmPredicted := adpcmAfter.predicted
     adpcmIndex := adpcmAfter.index
     expectedSeq := (seq + 1) % 65536
     lastSample := if 0 < decodedSamples.length
                   then decodedSamples.getLastD s.lastSample else s.lastSample
     droppedPackets := dropped
     totalPackets := s.totalPackets + 1
     totalSamplesDecoded := s.totalSamplesDecoded + (pre ++ decodedSamples).length })

/-- `parseSamples` (web/audio.js lines 165-236).  `totalPackets` is
incremented first; the packet is decoded from its own header state
*before* the gap handling runs; then the gap decides whether to prepend
interpolated samples, return nothing (stale), or append directly. -/
def parseSamples (o : MathOracle) (s : ProcState) (pkt : List Nat) :
    List Int × ProcState :=
  if s.totalPackets + 1 > 1 then
    if gapOf s pkt = 0 then
      parseFinish s (seqOf pkt) (packetDecode pkt).1 (packetDecode pkt).2 [] s.droppedPackets
    else if 0 < gapOf s pkt ∧ gapOf s pkt < 1000 then
      parseFinish s (seqOf pkt) (packetDecode pkt).1 (packetDecode pkt).2
        (interpolateGap o s.lastSample (gapOf s pkt).toNat
          ((packetDecode pkt).1.headD s.lastSample))
        (s.droppedPackets + (gapOf s pkt).toNat)
    else if gapOf s pkt ≥ 65536 - 1000 then
      ([], { s with adpcmPredicted := (packetDecode pkt).2.predicted,
                    adpcmIndex := (packetDecode pkt).2.index,
                    totalPackets := s.totalPackets + 1 })
    else
      parseFinish s (seqOf pkt) (packetDecode pkt).1 (packetDecode pkt).2 [] s.droppedPackets
  else
    parseFinish s (seqOf pkt) (packetDecode pkt).1 (packetDecode pkt).2 [] s.droppedPackets

/-! #### Branch lemmas for `parseSamples` -/

theorem parseSamples_first (o : MathOracle) (s : ProcState) (pkt : List Nat)
    (h : s.totalPackets = 0) :
    parseSamples o s pkt =
      parseFinish s (seqOf pkt) (decodePacket pkt) (adpcmAfterPacket pkt) [] s.droppedPackets := by
  have h1 : ¬ (s.totalPackets + 1 > 1) := by omega
  simp only [parseSamples, if_neg h1]
  rfl

theorem parseSamples_inorder (o : MathOracle) (s : ProcState) (pkt : List Nat)
    (h : 1 ≤ s.totalPackets) (hg : gapOf s pkt = 0) :
    parseSamples o s pkt =
      parseFinish s (seqOf pkt) (decodePacket pkt) (adpcmAfterPacket pkt) [] s.droppedPackets := by
  have h1 : s.totalPackets + 1 > 1 := by omega
  simp only [parseSamples, if_pos h1, if_pos hg]
  rfl

theorem parseSamples_dropped (o : MathOracle) (s : ProcState) (pkt : List Nat)
    (h : 1 ≤ s.totalPackets) (hg0 : 0 < gapOf s pkt) (hg1 : gapOf s pkt < 1000) :
    parseSamples o s pkt =
      parseFinish s (seqOf pkt) (decodePacket pkt) (adpcmAfterPacket pkt)
        (interpolateGap o s.lastSample (gapOf s pkt).toNat
          ((decodePacket pkt).headD s.lastSample))
        (s.droppedPackets + (gapOf s pkt).toNat) := by
  have h1 : s.totalPackets + 1 > 1 := by omega
  have h2 : ¬ gapOf s pkt = 0 := by omega
  simp only [parseSamples, if_pos h1, if_neg h2, if_pos (And.intro hg0 hg1)]
  rfl

theorem parseSamples_stale (o : MathOracle) (s : ProcState) (pkt : List Nat)
    (h : 1 ≤ s.totalPackets) (hg : 65536 - 1000 ≤ gapOf s pkt) :
    parseSamples o s pkt =
      ([], { s with adpcmPredicted := (adpcmAfterPacket pkt).predicted,
                    adpcmIndex := (adpcmAfterPacket pkt).index,
                    totalPackets := s.totalPackets + 1 }) := by
  have h1 : s.totalPackets + 1 > 1 := by omega
  have h2 : ¬ gapOf s pkt = 0 := by omega
  have h3 : ¬ (0 < gapOf s pkt ∧ gapOf s pkt < 1000) := by omega
  have h4 : gapOf s pkt ≥ 65536 - 1000 := hg
  simp only [parseSamples, if_pos h1, if_neg h2, if_neg h3, if_pos h4]
  rfl

theorem parseSamples_large_gap (o : MathOracle) (s : ProcState) (pkt : List Nat)
    (h : 1 ≤ s.totalPackets) (hg0 : 1000 ≤ gapOf s pkt) (hg1 : gapOf s pkt < 65536 - 1000) :
    parseSamples o s pkt =
      parseFinish s (seqOf pkt) (decodePacket pkt) (adpcmAfterPacket pkt) [] s.droppedPackets := by
  have h1 : s.totalPackets + 1 > 1 := by omega
  have h2 : ¬ gapOf s pkt = 0 := by omega
  have h3 : ¬ (0 < gapOf s pkt ∧ gapOf s pkt < 1000) := by omega
  have h4 : ¬ (gapOf s pkt ≥ 65536 - 1000) := by omega
  simp only [parseSamples, if_pos h1, if_neg h2, if_neg h3, if_neg h4]
  rfl

/-! #### Length facts about packet decoding -/

theorem bytesToNibbles_length (l : List Nat) :
    (bytesToNibbles l).length = 2 * l.length := by
  induction l with
  | nil => rfl
  | cons b bs ih => simp [bytesToNibbles, ih]; omega

theorem decodeADPCMSeq_length (s : AdpcmState) (ns : List Nat) :
    (decodeADPCMSeq s ns).1.length = ns.length := by
  induction ns generalizing s with
  | nil => rfl
  | cons n ns ih => simp [decodeADPCMSeq, ih]

theorem decodePacket_length (pkt : List Nat) (h : pkt.length = 64) :
    (decodePacket pkt).length = 118 := by
  simp [decodePacket, packetDecode, decodeADPCMSeq_length, packetNibbles,
    bytesToNibbles_length, h]

/-- Catch-all branch of `parseSamples`: a gap that is neither zero, nor
in (0, 1000), nor in the stale region, is treated like an in-order
packet. -/
theorem parseSamples_else (o : MathOracle) (s : ProcState) (pkt : List Nat)
    (h : 1 ≤ s.totalPackets) (hg0 : ¬ gapOf s pkt = 0)
    (hg1 : ¬ (0 < gapOf s pkt ∧ gapOf s pkt < 1000))
    (hg2 : ¬ (gapOf s pkt ≥ 65536 - 1000)) :
    parseSamples o s pkt =
      parseFinish s (seqOf pkt) (decodePacket pkt) (adpcmAfterPacket pkt) [] s.droppedPackets := by
  have h1 : s.totalPackets + 1 > 1 := by omega
  simp only [parseSamples, if_pos h1, if_neg hg0, if_neg hg1, if_neg hg2]
  rfl

/-- The ADPCM decoder state after any `parseSamples` call is a function
of the packet alone (the header overwrite happens before decoding, in
every branch, including the stale one). -/
theorem parseSamples_adpcm_state (o : MathOracle) (s : ProcState) (pkt : List Nat) :
    (parseSamples o s pkt).2.adpcmPredicted = (adpcmAfterPacket pkt).predicted ∧
    (parseSamples o s pkt).2.adpcmIndex = (adpcmAfterPacket pkt).index := by
  constructor
  · unfold parseSamples
    split_ifs <;> rfl
  · unfold parseSamples
    split_ifs <;> rfl

/-- Every non-stale `parseSamples` call returns the packet's own decoded
samples as a suffix, after a (possibly empty) interpolated part. -/
theorem parseSamples_accepted (o : MathOracle) (s : ProcState) (pkt : List Nat)
    (h : s.totalPackets = 0 ∨ gapOf s pkt < 65536 - 1000) :
    ∃ pre, (parseSamples o s pkt).1 = pre ++ decodePacket pkt := by
  by_cases h0 : s.totalPackets = 0
  · exact ⟨[], by rw [parseSamples_first o s pkt h0]; rfl⟩
  · have h1 : 1 ≤ s.totalPackets := by omega
    have hstale : gapOf s pkt < 65536 - 1000 := by
      rcases h with h | h
      · exact absurd h h0
      · exact h
    by_cases hg0 : gapOf s pkt = 0
    · exact ⟨[], by rw [parseSamples_inorder o s pkt h1 hg0]; rfl⟩
    · by_cases hgd : 0 < gapOf s pkt ∧ gapOf s pkt < 1000
      · exact ⟨interpolateGap o s.lastSample (gapOf s pkt).toNat
          ((decodePacket pkt).headD s.lastSample),
          by rw [parseSamples_dropped o s pkt h1 hgd.1 hgd.2]; rfl⟩
      · have h2 : ¬ (gapOf s pkt ≥ 65536 - 1000) := by omega
        exact ⟨[], by rw [parseSamples_else o s pkt h1 hg0 hgd h2]; rfl⟩

/-- C2: self-resynchronization.  The ADPCM decoder state after
`parseSamples` is a function of the packet's bytes alone (the packet
header overwrites predictor and step index before any nibble is
decoded), and for any two runs whose reconstruction state classifies the
packet as non-stale — in particular one that processed every prior
packet and one that discarded any subset of them — the emitted samples
end with the same packet-determined decoded samples `decodePacket pkt`. -/
theorem C2_self_resynchronization (o₁ o₂ : MathOracle) (s₁ s₂ : ProcState) (pkt : List Nat) :
    ((parseSamples o₁ s₁ pkt).2.adpcmPredicted = (adpcmAfterPacket pkt).predicted ∧
     (parseSamples o₁ s₁ pkt).2.adpcmIndex = (adpcmAfterPacket pkt).index) ∧
    ((s₁.totalPackets = 0 ∨ gapOf s₁ pkt < 65536 - 1000) →
     (s₂.totalPackets = 0 ∨ gapOf s₂ pkt < 65536 - 1000) →
      ∃ pre₁ pre₂, (parseSamples o₁ s₁ pkt).1 = pre₁ ++ decodePacket pkt ∧
                   (parseSamples o₂ s₂ pkt).1 = pre₂ ++ decodePacket pkt) := by
  refine ⟨parseSamples_adpcm_state o₁ s₁ pkt, fun h1 h2 => ?_⟩
  obtain ⟨p1, e1⟩ := parseSamples_accepted o₁ s₁ pkt h1
  obtain ⟨p2, e2⟩ := parseSamples_accepted o₂ s₂ pkt h2
  exact ⟨p1, p2, e1, e2⟩

/-- The all-zero 64-byte ADPCM packet. -/
def zeroPacket : List Nat := List.replicate 64 0

theorem C2_self_resynchronization_witness :
    ∃ pre₁ pre₂,
      (parseSamples constOracle resetState zeroPacket).1 = pre₁ ++ decodePacket zeroPacket ∧
      (parseSamples constOracle { resetState with totalPackets := 1 } zeroPacket).1 =
        pre₂ ++ decodePacket zeroPacket :=
  (C2_self_resynchronization constOracle constOracle resetState
      { resetState with totalPackets := 1 } zeroPacket).2
    (Or.inl (by decide)) (Or.inr (by decide))

/-- C4: a packet (after the first) whose gap falls in the stale region
`gap ≥ 65536 - 1000` is ignored: `parseSamples` returns no samples and
leaves `expectedSeq` and `lastSample` unchanged. -/
theorem C4_stale_packet_is_ignored (o : MathOracle) (s : ProcState) (pkt : List Nat)
    (h : 1 ≤ s.totalPackets) (hg : 65536 - 1000 ≤ gapOf s pkt) :
    (parseSamples o s pkt).1 = [] ∧
    (parseSamples o s pkt).2.expectedSeq = s.expectedSeq ∧
    (parseSamples o s pkt).2.lastSample = s.lastSample := by
  rw [parseSamples_stale o s pkt h hg]
  exact ⟨rfl, rfl, rfl⟩

/-- A packet with sequence number 4500 (bytes 0x94 0x11 little-endian). -/
def stalePacket : List Nat := 0x94 :: 0x11 :: List.replicate 62 0

theorem C4_stale_packet_is_ignored_witness :
    (parseSamples constOracle { resetState with totalPackets := 1, expectedSeq := 5000 }
        stalePacket).1 = [] ∧
    (parseSamples constOracle { resetState with totalPackets := 1, expectedSeq := 5000 }
        stalePacket).2.expectedSeq = 5000 ∧
    (parseSamples constOracle { resetState with totalPackets := 1, expectedSeq := 5000 }
        stalePacket).2.lastSample = 0 :=
  C4_stale_packet_is_ignored constOracle
    { resetState with totalPackets := 1, expectedSeq := 5000 } stalePacket
    (by decide) (by decide)

/-- C10: the first packet after a reset is accepted whatever its
sequence number, and a later packet whose gap lies in
`[1000, 65536 - 1000)` is accepted as if in order; in both cases the
decoded samples are appended with no interpolation, `expectedSeq` is
resynchronized to `(seq + 1) % 65536` and `lastSample` to the packet's
last decoded sample. -/
theorem C10_first_and_midrange_gap_accepted (o : MathOracle) (s : ProcState)
    (pkt : List Nat) (hlen : pkt.length = 64) :
    (s.totalPackets = 0 →
      (parseSamples o s pkt).1 = decodePacket pkt ∧
      (parseSamples o s pkt).2.expectedSeq = (seqOf pkt + 1) % 65536 ∧
      (parseSamples o s pkt).2.lastSample = (decodePacket pkt).getLastD s.lastSample) ∧
    (1 ≤ s.totalPackets → 1000 ≤ gapOf s pkt → gapOf s pkt < 65536 - 1000 →
      (parseSamples o s pkt).1 = decodePacket pkt ∧
      (parseSamples o s pkt).2.expectedSeq = (seqOf pkt + 1) % 65536 ∧
      (parseSamples o s pkt).2.lastSample = (decodePacket pkt).getLastD s.lastSample) := by
  have hpos : 0 < (decodePacket pkt).length := by
    rw [decodePacket_length pkt hlen]; omega
  constructor
  · intro h0
    rw [parseSamples_first o s pkt h0]
    exact ⟨List.nil_append _, rfl, by simp [parseFinish, if_pos hpos]⟩
  · intro h1 hg0 hg1
    rw [parseSamples_large_gap o s pkt h1 hg0 hg1]
    exact ⟨List.nil_append _, rfl, by simp [parseFinish, if_pos hpos]⟩

theorem C10_first_and_midrange_gap_accepted_witness :
    (parseSamples constOracle resetState zeroPacket).1 = decodePacket zeroPacket ∧
    (parseSamples constOracle resetState zeroPacket).2.expectedSeq =
      (seqOf zeroPacket + 1) % 65536 ∧
    (parseSamples constOracle resetState zeroPacket).2.lastSample =
      (decodePacket zeroPacket).getLastD resetState.lastSample :=
  (C10_first_and_midrange_gap_accepted constOracle resetState zeroPacket (by decide)).1 rfl

/-! #### Bounds for the interpolator (used for C3) -/

theorem jsRound_bounds (q : ℚ) (h1 : -32768 ≤ q) (h2 : q ≤ 32767) :
    -32768 ≤ jsRound q ∧ jsRound q ≤ 32767 := by
  constructor
  · have h : ((-32768 : Int) : ℚ) ≤ q + 1/2 := by push_cast; linarith
    calc (-32768 : Int) = ⌊((-32768 : Int) : ℚ)⌋ := (Int.floor_intCast _).symm
      _ ≤ ⌊q + 1/2⌋ := Int.floor_le_floor h
  · have h : q + 1/2 < ((32768 : Int) : ℚ) := by push_cast; linarith
    have := Int.floor_lt.mpr h
    unfold jsRound
    omega

/-- Every sample `_interpolateGap` synthesizes lies in the 16-bit range
(the code clamps before rounding), for every oracle. -/
theorem interpolateGap_mem_bounds (o : MathOracle) (ls : Int) (gp : Nat) (nf : Int) :
    ∀ x ∈ interpolateGap o ls gp nf, -32768 ≤ x ∧ x ≤ 32767 := by
  intro x hx
  simp only [interpolateGap, List.mem_map] at hx
  obtain ⟨i, -, rfl⟩ := hx
  apply jsRound_bounds
  · exact le_max_left _ _
  · exact max_le (by norm_num) (min_le_left _ _)

theorem interpolateGap_length (o : MathOracle) (ls : Int) (gp : Nat) (nf : Int) :
    (interpolateGap o ls gp nf).length = gp * SAMPLES_PER_PACKET := by
  simp [interpolateGap]

/-! ### C3: the gap scenario [0, 1, 3, 4] -/

/-- Feeding a list of packets through `parseSamples`, collecting each
call's returned samples. -/
def runParse (o : MathOracle) (s : ProcState) : List (List Nat) → List (List Int) × ProcState
  | [] => ([], s)
  | p :: ps =>
    let r := parseSamples o s p
    let rest := runParse o r.2 ps
    (r.1 :: rest.1, rest.2)

/-- A 64-byte packet with sequence number `n` (little-endian header) and
all remaining bytes zero. -/
def gapPkt (n : Nat) : List Nat := n % 256 :: n / 256 :: List.replicate 62 0

set_option maxRecDepth 10000

/-- C3 fails as stated: on packets with sequence numbers 0, 1, 3, 4 the
reconstructor emits 118 + 118 + (118 interpolated + 118) + 118 = 590
samples — five packets' worth of elapsed time — not `4 * 118 = 472`. -/
theorem C3_gap_scenario_counterexample :
    ((runParse constOracle resetState
        [gapPkt 0, gapPkt 1, gapPkt 3, gapPkt 4]).1.map List.length).sum = 590 ∧
    (590 : Nat) ≠ 4 * SAMPLES_PER_PACKET := by
  exact ⟨by decide, by decide⟩

/-- C3 (amended): with packet 2 dropped from [0..4], the reconstructor
emits exactly `5 * samplesPerPacket` samples — the four decoded packets
plus one interpolated packet's worth, spanning the elapsed time of
sequence numbers 0 through 4 — and every synthesized (interpolated)
sample lies within [-32768, 32767]. -/
theorem C3_gap_scenario_amended (o : MathOracle) (p0 p1 p3 p4 : List Nat)
    (h0 : p0.length = 64) (h1 : p1.length = 64) (h3 : p3.length = 64) (h4 : p4.length = 64)
    (hs0 : seqOf p0 = 0) (hs1 : seqOf p1 = 1) (hs3 : seqOf p3 = 3) (hs4 : seqOf p4 = 4) :
    ((runParse o resetState [p0, p1, p3, p4]).1.map List.length).sum =
      5 * SAMPLES_PER_PACKET ∧
    ∀ x ∈ ((runParse o resetState [p0, p1, p3, p4]).1.getD 2 []).take SAMPLES_PER_PACKET,
      -32768 ≤ x ∧ x ≤ 32767 := by
  -- step 1: first packet after reset
  have e0 := parseSamples_first o resetState p0 rfl
  have f1t : (parseSamples o resetState p0).2.totalPackets = 1 := by rw [e0]; rfl
  have f1e : (parseSamples o resetState p0).2.expectedSeq = 1 := by
    rw [e0]; simp [parseFinish, hs0]
  -- step 2: in-order packet 1
  have g1 : gapOf (parseSamples o resetState p0).2 p1 = 0 := by
    simp only [gapOf, f1e, hs1]; decide
  have e1 := parseSamples_inorder o (parseSamples o resetState p0).2 p1 (by omega) g1
  have f2t : (parseSamples o (parseSamples o resetState p0).2 p1).2.totalPackets = 2 := by
    rw [e1]; simp [parseFinish, f1t]
  have f2e : (parseSamples o (parseSamples o resetState p0).2 p1).2.expectedSeq = 2 := by
    rw [e1]; simp [parseFinish, hs1]
  -- step 3: packet 3 with gap 1
  have g3 : gapOf (parseSamples o (parseSamples o resetState p0).2 p1).2 p3 = 1 := by
    simp only [gapOf, f2e, hs3]; decide
  have e3 := parseSamples_dropped o (parseSamples o (parseSamples o resetState p0).2 p1).2 p3
    (by omega) (by omega) (by omega)
  have f3t : (parseSamples o (parseSamples o (parseSamples o resetState p0).2 p1).2 p3).2.totalPackets = 3 := by
    rw [e3]; simp [parseFinish, f2t]
  have f3e : (parseSamples o (parseSamples o (parseSamples o resetState p0).2 p1).2 p3).2.expectedSeq = 4 := by
    rw [e3]; simp [parseFinish, hs3]
  -- step 4: in-order packet 4
  have g4 : gapOf (parseSamples o (parseSamples o (parseSamples o resetState p0).2 p1).2 p3).2 p4 = 0 := by
    simp only [gapOf, f3e, hs4]; decide
  have e4 := parseSamples_inorder o
    (parseSamples o (parseSamples o (parseSamples o resetState p0).2 p1).2 p3).2 p4 (by omega) g4
  -- lengths of the four outputs
  have l0 : (parseSamples o resetState p0).1.length = 118 := by
    rw [e0]; simp [parseFinish, decodePacket_length p0 h0]
  have l1 : (parseSamples o (parseSamples o resetState p0).2 p1).1.length = 118 := by
    rw [e1]; simp [parseFinish, decodePacket_length p1 h1]
  have l3 : (parseSamples o (parseSamples o (parseSamples o resetState p0).2 p1).2 p3).1.length = 236 := by
    rw [e3]; simp [parseFinish, decodePacket_length p3 h3, interpolateGap_length, g3,
      SAMPLES_PER_PACKET]
  have l4 : (parseSamples o (parseSamples o (parseSamples o (parseSamples o resetState p0).2 p1).2 p3).2 p4).1.length = 118 := by
    rw [e4]; simp [parseFinish, decodePacket_length p4 h4]
  have hlist : (runParse o resetState [p0, p1, p3, p4]).1 =
      [(parseSamples o resetState p0).1,
       (parseSamples o (parseSamples o resetState p0).2 p1).1,
       (parseSamples o (parseSamples o (parseSamples o resetState p0).2 p1).2 p3).1,
       (parseSamples o (parseSamples o (parseSamples o (parseSamples o resetState p0).2 p1).2 p3).2 p4).1] := rfl
  constructor
  · rw [hlist]
    simp only [List.map_cons, List.map_nil, List.sum_cons, List.sum_nil]
    rw [l0, l1, l3, l4]
    rfl
  · intro x hx
    rw [hlist] at hx
    have hx' : x ∈ ((parseSamples o (parseSamples o (parseSamples o resetState p0).2 p1).2 p3).1).take
        SAMPLES_PER_PACKET := hx
    rw [e3] at hx'
    simp only [parseFinish] at hx'
    have hlen : (interpolateGap o
        (parseSamples o (parseSamples o resetState p0).2 p1).2.lastSample
        (gapOf (parseSamples o (parseSamples o resetState p0).2 p1).2 p3).toNat
        ((decodePacket p3).headD
          (parseSamples o (parseSamples o resetState p0).2 p1).2.lastSample)).length =
        SAMPLES_PER_PACKET := by
      rw [interpolateGap_length, g3]; rfl
    rw [← hlen, List.take_left] at hx'
    exact interpolateGap_mem_bounds _ _ _ _ x hx'

theorem C3_gap_scenario_amended_witness :
    ((runParse constOracle resetState
        [gapPkt 0, gapPkt 1, gapPkt 3, gapPkt 4]).1.map List.length).sum =
      5 * SAMPLES_PER_PACKET ∧
    ∀ x ∈ ((runParse constOracle resetState
        [gapPkt 0, gapPkt 1, gapPkt 3, gapPkt 4]).1.getD 2 []).take SAMPLES_PER_PACKET,
      -32768 ≤ x ∧ x ≤ 32767 :=
  C3_gap_scenario_amended constOracle (gapPkt 0) (gapPkt 1) (gapPkt 3) (gapPkt 4)
    (by decide) (by decide) (by decide) (by decide)
    (by decide) (by decide) (by decide) (by decide)

/-! ### Thermal quantizer (device `thermalSendFrame`, host `parseThermalFrame`) -/

/-- The clamp of `thermalSendFrame` (lib-01-thermal.ino lines 105-107):
`if (temp < 0.0f) temp = 0.0f; if (temp > 40.0f) temp = 40.0f;`. -/
def clampTemp (t : ℚ) : ℚ :=
  let t1 := if t < 0 then 0 else t
  if t1 > 40 then 40 else t1

/-- Device-side per-pixel thermal encoding (lib-01-thermal.ino,
`thermalSendFrame` lines 103-112): clamp to [0.0, 40.0], then
`(uint16_t)(temp * 10.0f + 0.5f)` — truncation of a non-negative value,
i.e. a floor (round-to-nearest).  Float arithmetic is modelled as exact
rational arithmetic. -/
def thermalEncodePixel (temp : ℚ) : Nat :=
  (⌊clampTemp temp * 10 + 1/2⌋).toNat

theorem clampTemp_bounds (t : ℚ) : 0 ≤ clampTemp t ∧ clampTemp t ≤ 40 := by
  by_cases hB : t < 0
  · simp only [clampTemp, if_pos hB]
    norm_num
  · simp only [clampTemp, if_neg hB]
    by_cases hA : t > 40
    · rw [if_pos hA]
      norm_num
    · rw [if_neg hA]
      constructor <;> [linarith; linarith]

theorem clampTemp_eq_self (t : ℚ) (h0 : 0 ≤ t) (h1 : t ≤ 40) : clampTemp t = t := by
  simp only [clampTemp, if_neg (not_lt.mpr h0)]
  exact if_neg (not_lt.mpr h1)

/-- The little-endian byte pair of an encoded pixel
(`encoded & 0xFF` = `e % 256`, `(encoded >> 8) & 0xFF` = `e / 256 % 256`
for the non-negative `uint16_t` value). -/
def thermalPixelBytes (temp : ℚ) : List Nat :=
  [thermalEncodePixel temp % 256, thermalEncodePixel temp / 256 % 256]

/-- `thermalSendFrame`: header 0xCA 0x01 followed by the pixels'
little-endian byte pairs. -/
def thermalSendFrame (temps : List ℚ) : List Nat :=
  0xCA :: 0x01 :: temps.flatMap thermalPixelBytes

/-- `parseThermalFrame` (web/serial.js lines 138-151): for each of the
768 pixels, skip the 2-byte header, recombine the little-endian byte
pair (`low | (high << 8)`, i.e. `low + high * 256` for byte values) and
divide by 10. -/
def parseThermalFrame (frameData : List Nat) : List ℚ :=
  (List.range 768).map (fun i =>
    ((frameData.getD (2 + i * 2) 0 + frameData.getD (2 + i * 2 + 1) 0 * 256 : Nat) : ℚ) / 10)

theorem thermalEncodePixel_le_400 (t : ℚ) : thermalEncodePixel t ≤ 400 := by
  unfold thermalEncodePixel
  obtain ⟨h0, h1⟩ := clampTemp_bounds t
  have hf : ⌊clampTemp t * 10 + 1/2⌋ ≤ 400 := by
    have : clampTemp t * 10 + 1/2 < ((401 : Int) : ℚ) := by push_cast; linarith
    have := Int.floor_lt.mpr this
    omega
  omega

/-- The per-pixel round trip: for temperatures in [0, 40] the decoded
value `encoded / 10` is within 1/20 = 0.05 of the original. -/
theorem thermal_pixel_bound (t : ℚ) (h0 : 0 ≤ t) (h1 : t ≤ 40) :
    |((thermalEncodePixel t : ℚ)) / 10 - t| ≤ 1/20 := by
  have hc : thermalEncodePixel t = (⌊t * 10 + 1/2⌋).toNat := by
    unfold thermalEncodePixel
    rw [clampTemp_eq_self t h0 h1]
  have hfl : (0 : Int) ≤ ⌊t * 10 + 1/2⌋ := by
    apply Int.le_floor.mpr
    push_cast
    linarith
  have hcast : ((thermalEncodePixel t : ℚ)) = ((⌊t * 10 + 1/2⌋ : Int) : ℚ) := by
    rw [hc]
    exact_mod_cast congrArg (fun z : Int => (z : ℚ)) (Int.toNat_of_nonneg hfl)
  have hle : ((⌊t * 10 + 1/2⌋ : Int) : ℚ) ≤ t * 10 + 1/2 := Int.floor_le _
  have hgt : t * 10 + 1/2 < ((⌊t * 10 + 1/2⌋ : Int) : ℚ) + 1 := Int.lt_floor_add_one _
  rw [hcast]
  rw [abs_le]
  constructor <;> [linarith; linarith]

theorem bind_pixelBytes_getD (temps : List ℚ) (d : Nat) :
    ∀ i, i < temps.length →
      (temps.flatMap thermalPixelBytes).getD (i * 2) d =
        thermalEncodePixel (temps.getD i 0) % 256 ∧
      (temps.flatMap thermalPixelBytes).getD (i * 2 + 1) d =
        thermalEncodePixel (temps.getD i 0) / 256 % 256 := by
  induction temps with
  | nil => intro i h; simp at h
  | cons t ts ih =>
    intro i h
    cases i with
    | zero => exact ⟨rfl, rfl⟩
    | succ j =>
      have h' : j < ts.length := by simp at h; omega
      have e1 : (j + 1) * 2 = j * 2 + 1 + 1 := by ring
      have e2 : (j + 1) * 2 + 1 = j * 2 + 1 + 1 + 1 := by ring
      have hbind : (t :: ts).flatMap thermalPixelBytes =
          thermalEncodePixel t % 256 :: thermalEncodePixel t / 256 % 256 ::
            ts.flatMap thermalPixelBytes := rfl
      constructor
      · rw [e1, hbind, List.getD_cons_succ, List.getD_cons_succ, List.getD_cons_succ]
        exact (ih j h').1
      · rw [e2, hbind, List.getD_cons_succ, List.getD_cons_succ, List.getD_cons_succ]
        exact (ih j h').2

theorem parseThermalFrame_getD (temps : List ℚ) (hlen : temps.length = 768)
    (i : Nat) (h : i < 768) :
    (parseThermalFrame (thermalSendFrame temps)).getD i 0 =
      ((thermalEncodePixel (temps.getD i 0) : ℚ)) / 10 := by
  have hl : (parseThermalFrame (thermalSendFrame temps)).length = 768 := by
    simp [parseThermalFrame]
  have hil : i < (parseThermalFrame (thermalSendFrame temps)).length := by omega
  rw [List.getD_eq_getElem _ _ hil]
  unfold parseThermalFrame
  rw [List.getElem_map, List.getElem_range]
  -- reduce the two header bytes
  have e1 : 2 + i * 2 = i * 2 + 1 + 1 := by ring
  have hsf : thermalSendFrame temps =
      0xCA :: 0x01 :: temps.flatMap thermalPixelBytes := rfl
  rw [e1, hsf, List.getD_cons_succ, List.getD_cons_succ, List.getD_cons_succ,
    List.getD_cons_succ]
  have hidx := bind_pixelBytes_getD temps 0 i (by omega)
  rw [hidx.1, hidx.2]
  have hle := thermalEncodePixel_le_400 (temps.getD i 0)
  have hrec : thermalEncodePixel (temps.getD i 0) % 256 +
      thermalEncodePixel (temps.getD i 0) / 256 % 256 * 256 =
      thermalEncodePixel (temps.getD i 0) := by omega
  rw [hrec]

/-- C5: the thermal quantization round trip.  For a 768-pixel frame of
temperatures all in [0.0, 40.0], device encoding (`thermalSendFrame`:
clamp, `round(temp * 10)` as a little-endian `u16`) followed by host
decoding (`parseThermalFrame`: recombine bytes, divide by 10) yields,
at every pixel, a value within 0.05 of the original temperature. -/
theorem C5_thermal_quantization_bound (temps : List ℚ) (hlen : temps.length = 768)
    (hr : ∀ t ∈ temps, 0 ≤ t ∧ t ≤ 40) (i : Nat) (h : i < 768) :
    |(parseThermalFrame (thermalSendFrame temps)).getD i 0 - temps.getD i 0| ≤ 1/20 := by
  rw [parseThermalFrame_getD temps hlen i h]
  have hil : i < temps.length := by omega
  have hmem : temps.getD i 0 ∈ temps := by
    rw [List.getD_eq_getElem _ _ hil]
    exact List.getElem_mem _
  obtain ⟨h0, h1⟩ := hr _ hmem
  exact thermal_pixel_bound _ h0 h1

theorem C5_thermal_quantization_bound_witness :
    |(parseThermalFrame (thermalSendFrame (List.replicate 768 (1/4 : ℚ)))).getD 0 0 -
      (List.replicate 768 (1/4 : ℚ)).getD 0 0| ≤ 1/20 :=
  C5_thermal_quantization_bound (List.replicate 768 (1/4 : ℚ))
    (by simp)
    (by intro t ht
        rw [List.eq_of_mem_replicate ht]
        norm_num)
    0 (by norm_num)

/-! ### Serial frame demultiplexer (web/serial.js) -/

/-- `THERMAL_FRAME_SIZE` (web/serial.js line 19). -/
def THERMAL_FRAME_SIZE : Nat := 1538

/-- `AUDIO_FRAME_SIZE` (web/serial.js line 20). -/
def AUDIO_FRAME_SIZE : Nat := 66

/-- The events the demultiplexer dispatches: a decoded thermal frame
(`thermalDataCallback`), an ADPCM packet (`audioDataCallback`), a button
count (`buttonDataCallback`), or a debug line (`console.log`). -/
inductive SerialEvent where
  | thermal (vals : List ℚ)
  | audio (packet : List Nat)
  | button (value : Int)
  | debug (msg : List Nat)
deriving Repr, DecidableEq

/-- `findMessageStart` (web/serial.js lines 112-132), as a recursion
over the buffer, carrying the current index: a start is a `0xCA` whose
*next* byte exists and is a recognized type (0x01/0x02), or a text
first-byte `'b'`/`'d'` (0x62/0x64). -/
def findMessageStartAux : List Nat → Nat → Option Nat
  | [], _ => none
  | b :: rest, i =>
    if b = 0xCA ∧ rest ≠ [] ∧ (rest.headD 0 = 0x01 ∨ rest.headD 0 = 0x02) then some i
    else if b = 0x62 ∨ b = 0x64 then some i
    else findMessageStartAux rest (i + 1)

def findMessageStart (buffer : List Nat) : Option Nat := findMessageStartAux buffer 0

/-- Index of the first newline byte (0x0a), if any. -/
def findNewline : List Nat → Option Nat
  | [] => none
  | b :: rest => if b = 0x0a then some 0 else (findNewline rest).map (· + 1)

/-- The ASCII whitespace bytes removed by JS `trim` (the protocol's
lines are ASCII, so the byte-level test agrees with the string one). -/
def isWsByte (b : Nat) : Bool :=
  b == 0x09 || b == 0x0a || b == 0x0b || b == 0x0c || b == 0x0d || b == 0x20

def trimBytes (l : List Nat) : List Nat :=
  ((l.dropWhile isWsByte).reverse.dropWhile isWsByte).reverse

/-- `tryParseTextLine` (web/serial.js lines 95-106): up to the first
newline, trimmed; `i + 1` bytes consumed. -/
def tryParseTextLine (buffer : List Nat) : Option (List Nat × Nat) :=
  match findNewline buffer with
  | some i => some (trimBytes (buffer.take i), i + 1)
  | none => none

/-- The leading run of decimal-digit bytes. -/
def leadingDigits (l : List Nat) : List Nat :=
  l.takeWhile (fun b => decide (0x30 ≤ b ∧ b ≤ 0x39))

def digitsToNat (l : List Nat) : Nat :=
  l.foldl (fun a b => a * 10 + (b - 0x30)) 0

/-- JS `parseInt(s, 10)`: skip leading whitespace, optional sign, then
the leading decimal digits; none at all gives `NaN` (here `none`). -/
def jsParseIntDec (s : List Nat) : Option Int :=
  if (s.dropWhile isWsByte).headD 0 = 0x2d ∧ s.dropWhile isWsByte ≠ [] then
    if leadingDigits ((s.dropWhile isWsByte).drop 1) = [] then none
    else some (-(digitsToNat (leadingDigits ((s.dropWhile isWsByte).drop 1)) : Int))
  else if (s.dropWhile isWsByte).headD 0 = 0x2b ∧ s.dropWhile isWsByte ≠ [] then
    if leadingDigits ((s.dropWhile isWsByte).drop 1) = [] then none
    else some (digitsToNat (leadingDigits ((s.dropWhile isWsByte).drop 1)))
  else
    if leadingDigits (s.dropWhile isWsByte) = [] then none
    else some (digitsToNat (leadingDigits (s.dropWhile isWsByte)))

/-- `processTextLine` (web/serial.js lines 170-179): `"btn:"` lines
dispatch the parsed count (when not NaN); `"debug:"` lines are logged;
anything else is ignored. -/
def processTextLine (line : List Nat) : Option SerialEvent :=
  if line.take 4 = [0x62, 0x74, 0x6e, 0x3a] then
    match jsParseIntDec (line.drop 4) with
    | some v => some (.button v)
    | none => none
  else if line.take 6 = [0x64, 0x65, 0x62, 0x75, 0x67, 0x3a] then
    some (.debug (line.drop 6))
  else none

/-- The no-start retention policy (web/serial.js lines 219-223): keep at
most the last 10 bytes. -/
def trim10 (l : List Nat) : List Nat :=
  if l.length > 10 then l.drop (l.length - 10) else l

/-- `processBuffer` (web/serial.js lines 214-278), with explicit fuel.
Every iteration that continues the loop consumes at least one byte, so a
fuel of `length + 1` always suffices (see `processBufferFuel_congr`).
The events dispatched to the three callbacks (and `console.log`) are
collected in order; the second component is the buffer left behind. -/
def processBufferFuel : Nat → List Nat → List SerialEvent × List Nat
  | 0, buf => ([], buf)
  | fuel + 1, buf =>
    if buf.length = 0 then ([], buf)
    else
      match findMessageStart buf with
      | none => ([], trim10 buf)
      | some start =>
        if (buf.drop start).getD 0 0 = 0xCA ∧ 2 ≤ (buf.drop start).length then
          if (buf.drop start).getD 1 0 = 0x01 then
            if (buf.drop start).length < THERMAL_FRAME_SIZE then ([], buf.drop start)
            else
              (SerialEvent.thermal (parseThermalFrame ((buf.drop start).take THERMAL_FRAME_SIZE)) ::
                 (processBufferFuel fuel ((buf.drop start).drop THERMAL_FRAME_SIZE)).1,
               (processBufferFuel fuel ((buf.drop start).drop THERMAL_FRAME_SIZE)).2)
          else if (buf.drop start).getD 1 0 = 0x02 then
            if (buf.drop start).length < AUDIO_FRAME_SIZE then ([], buf.drop start)
            else
              (SerialEvent.audio (((buf.drop start).take AUDIO_FRAME_SIZE).drop 2) ::
                 (processBufferFuel fuel ((buf.drop start).drop AUDIO_FRAME_SIZE)).1,
               (processBufferFuel fuel ((buf.drop start).drop AUDIO_FRAME_SIZE)).2)
          else processBufferFuel fuel ((buf.drop start).drop 1)
        else
          match tryParseTextLine (buf.drop start) with
          | some lc =>
            ((processTextLine lc.1).toList ++
               (processBufferFuel fuel ((buf.drop start).drop lc.2)).1,
             (processBufferFuel fuel ((buf.drop start).drop lc.2)).2)
          | none =>
            if (buf.drop start).length > 5000 then
              ([], (buf.drop start).drop ((buf.drop start).length - 1000))
            else ([], buf.drop start)

/-- One `processBuffer` run on the current buffer. -/
def processBuffer (buf : List Nat) : List SerialEvent × List Nat :=
  processBufferFuel (buf.length + 1) buf

theorem tryParseTextLine_consumed_pos (b : List Nat) (lc : List Nat × Nat)
    (h : tryParseTextLine b = some lc) : 1 ≤ lc.2 := by
  unfold tryParseTextLine at h
  cases hn : findNewline b with
  | none => rw [hn] at h; exact absurd h (by simp)
  | some i =>
    rw [hn] at h
    injection h with h2
    rw [← h2]
    exact Nat.succ_le_succ (Nat.zero_le i)

/-- Any fuel of at least `length + 1` computes the same result. -/
theorem processBufferFuel_congr : ∀ (f₁ : Nat) (buf : List Nat) (f₂ : Nat),
    buf.length + 1 ≤ f₁ → buf.length + 1 ≤ f₂ →
    processBufferFuel f₁ buf = processBufferFuel f₂ buf := by
  intro f₁
  induction f₁ with
  | zero => intro buf f₂ h1 h2; exact (Nat.not_succ_le_zero _ h1).elim
  | succ a ih =>
    intro buf f₂ h1 h2
    obtain ⟨b, rfl⟩ : ∃ b, f₂ = b + 1 := ⟨f₂ - 1, by omega⟩
    simp only [processBufferFuel]
    by_cases h0 : buf.length = 0
    · simp [h0]
    · simp only [if_neg h0]
      cases hf : findMessageStart buf with
      | none => rfl
      | some start =>
        dsimp only
        have hds : (buf.drop start).length = buf.length - start := List.length_drop _ _
        by_cases hCA : (buf.drop start).getD 0 0 = 0xCA ∧ 2 ≤ (buf.drop start).length
        · rw [if_pos hCA, if_pos hCA]
          by_cases hty1 : (buf.drop start).getD 1 0 = 0x01
          · rw [if_pos hty1, if_pos hty1]
            by_cases hlt : (buf.drop start).length < THERMAL_FRAME_SIZE
            · rw [if_pos hlt, if_pos hlt]
            · rw [if_neg hlt, if_neg hlt]
              have hx : ((buf.drop start).drop THERMAL_FRAME_SIZE).length + 1 ≤ a := by
                rw [List.length_drop, hds]
                simp only [THERMAL_FRAME_SIZE] at *
                omega
              have hy : ((buf.drop start).drop THERMAL_FRAME_SIZE).length + 1 ≤ b := by
                rw [List.length_drop, hds]
                simp only [THERMAL_FRAME_SIZE] at *
                omega
              rw [ih _ b hx hy]
          · rw [if_neg hty1, if_neg hty1]
            by_cases hty2 : (buf.drop start).getD 1 0 = 0x02
            · rw [if_pos hty2, if_pos hty2]
              by_cases hlt : (buf.drop start).length < AUDIO_FRAME_SIZE
              · rw [if_pos hlt, if_pos hlt]
              · rw [if_neg hlt, if_neg hlt]
                have hx : ((buf.drop start).drop AUDIO_FRAME_SIZE).length + 1 ≤ a := by
                  rw [List.length_drop, hds]
                  simp only [AUDIO_FRAME_SIZE] at *
                  omega
                have hy : ((buf.drop start).drop AUDIO_FRAME_SIZE).length + 1 ≤ b := by
                  rw [List.length_drop, hds]
                  simp only [AUDIO_FRAME_SIZE] at *
                  omega
                rw [ih _ b hx hy]
            · rw [if_neg hty2, if_neg hty2]
              have hx : ((buf.drop start).drop 1).length + 1 ≤ a := by
                rw [List.length_drop, hds]; omega
              have hy : ((buf.drop start).drop 1).length + 1 ≤ b := by
                rw [List.length_drop, hds]; omega
              rw [ih _ b hx hy]
        · rw [if_neg hCA, if_neg hCA]
          cases ht : tryParseTextLine (buf.drop start) with
          | none => rfl
          | some lc =>
            dsimp only
            have hc1 := tryParseTextLine_consumed_pos _ _ ht
            have hx : ((buf.drop start).drop lc.2).length + 1 ≤ a := by
              rw [List.length_drop, hds]; omega
            have hy : ((buf.drop start).drop lc.2).length + 1 ≤ b := by
              rw [List.length_drop, hds]; omega
            rw [ih _ b hx hy]

/-! #### Garbage bytes and message starts -/

/-- A byte that can never begin a message: not the 0xCA marker and not a
text first-byte `'b'`/`'d'`. -/
def GarbageByte (b : Nat) : Prop := b ≠ 0xCA ∧ b ≠ 0x62 ∧ b ≠ 0x64

def Garbage (g : List Nat) : Prop := ∀ b ∈ g, GarbageByte b

theorem garbage_nil : Garbage [] := by intro b hb; cases hb

theorem garbage_of_subset {g l : List Nat} (hg : Garbage g) (h : ∀ b ∈ l, b ∈ g) :
    Garbage l := fun b hb => hg b (h b hb)

theorem findMessageStartAux_append_garbage (g v : List Nat) :
    Garbage g → ∀ i, findMessageStartAux (g ++ v) i = findMessageStartAux v (i + g.length) := by
  induction g with
  | nil => intro _ i; simp
  | cons b g' ih =>
    intro hg i
    have hb := hg b (List.mem_cons_self b g')
    show findMessageStartAux (b :: (g' ++ v)) i = _
    simp only [findMessageStartAux]
    rw [if_neg (fun h => hb.1 h.1), if_neg (fun h => h.elim hb.2.1 hb.2.2)]
    rw [ih (fun x hx => hg x (List.mem_cons_of_mem b hx)) (i + 1)]
    congr 1
    simp [List.length_cons]
    omega

theorem findMessageStart_garbage_none (g : List Nat) (hg : Garbage g) :
    findMessageStart g = none := by
  have h := findMessageStartAux_append_garbage g [] hg 0
  simpa [findMessageStart, findMessageStartAux] using h

theorem findMessageStart_garbage_CA_none (g : List Nat) (hg : Garbage g) :
    findMessageStart (g ++ [0xCA]) = none := by
  unfold findMessageStart
  rw [findMessageStartAux_append_garbage g _ hg 0]
  simp [findMessageStartAux]

theorem findMessageStart_binary (g : List Nat) (hg : Garbage g) (t : Nat)
    (ht : t = 0x01 ∨ t = 0x02) (rest : List Nat) :
    findMessageStart (g ++ 0xCA :: t :: rest) = some g.length := by
  unfold findMessageStart
  rw [findMessageStartAux_append_garbage g _ hg 0]
  rcases ht with rfl | rfl <;> simp [findMessageStartAux]

theorem findMessageStart_text (g : List Nat) (hg : Garbage g) (b : Nat)
    (hb : b = 0x62 ∨ b = 0x64) (rest : List Nat) :
    findMessageStart (g ++ b :: rest) = some g.length := by
  unfold findMessageStart
  rw [findMessageStartAux_append_garbage g _ hg 0]
  simp only [findMessageStartAux]
  have hbCA : ¬ (b = 0xCA ∧ rest ≠ [] ∧ (rest.headD 0 = 0x01 ∨ rest.headD 0 = 0x02)) := by
    rcases hb with rfl | rfl <;> exact fun h => absurd h.1 (by decide)
  rw [if_neg hbCA, if_pos hb]
  simp

/-! #### One-frame step lemmas for `processBuffer` -/

theorem processBuffer_cons_thermal (g p B' : List Nat) (hg : Garbage g)
    (hp : p.length = 1536) :
    processBuffer (g ++ 0xCA :: 0x01 :: (p ++ B')) =
      (SerialEvent.thermal (parseThermalFrame (0xCA :: 0x01 :: p)) :: (processBuffer B').1,
       (processBuffer B').2) := by
  have hfind : findMessageStart (g ++ 0xCA :: 0x01 :: (p ++ B')) = some g.length :=
    findMessageStart_binary g hg 0x01 (Or.inl rfl) (p ++ B')
  have hdrop : (g ++ 0xCA :: 0x01 :: (p ++ B')).drop g.length = 0xCA :: 0x01 :: (p ++ B') :=
    List.drop_left g _
  have hassoc : (0xCA :: 0x01 :: (p ++ B') : List Nat) = (0xCA :: 0x01 :: p) ++ B' := by simp
  have hlenfr : (0xCA :: 0x01 :: p : List Nat).length = THERMAL_FRAME_SIZE := by
    simp [hp, THERMAL_FRAME_SIZE]
  have htake : (0xCA :: 0x01 :: (p ++ B')).take THERMAL_FRAME_SIZE = 0xCA :: 0x01 :: p := by
    rw [hassoc]; exact List.take_left' hlenfr
  have hdrop2 : (0xCA :: 0x01 :: (p ++ B')).drop THERMAL_FRAME_SIZE = B' := by
    rw [hassoc]; exact List.drop_left' hlenfr
  have hlenbuf : (g ++ 0xCA :: 0x01 :: (p ++ B')).length = g.length + 1538 + B'.length := by
    simp only [List.length_append, List.length_cons, hp]; omega
  show processBufferFuel ((g ++ 0xCA :: 0x01 :: (p ++ B')).length + 1) _ = _
  simp only [processBufferFuel]
  rw [if_neg (show ¬ (g ++ 0xCA :: 0x01 :: (p ++ B')).length = 0 by rw [hlenbuf]; omega)]
  rw [hfind]
  dsimp only
  rw [hdrop]
  rw [if_pos ⟨rfl, by simp only [List.length_cons]; omega⟩]
  rw [if_pos (show (0xCA :: 0x01 :: (p ++ B') : List Nat).getD 1 0 = 0x01 from rfl)]
  rw [if_neg (show ¬ (0xCA :: 0x01 :: (p ++ B') : List Nat).length < THERMAL_FRAME_SIZE by
    simp only [List.length_cons, List.length_append, hp, THERMAL_FRAME_SIZE]; omega)]
  rw [htake, hdrop2]
  rw [processBufferFuel_congr _ B' (B'.length + 1) (by rw [hlenbuf]; omega) (by omega)]
  rfl

theorem findNewline_btn (d : Nat) (rest : List Nat) :
    findNewline (0x62 :: 0x74 :: 0x6e :: 0x3a :: (0x30 + d) :: 0x0a :: rest) = some 5 := by
  have hdne : ¬ (0x30 + d = 0x0a) := by omega
  simp [findNewline, hdne]

theorem isWsByte_digit (d : Nat) : isWsByte (0x30 + d) = false := by
  simp only [isWsByte, Bool.or_eq_false_iff, beq_eq_false_iff_ne, ne_eq]
  omega

theorem trimBytes_btnline (d : Nat) :
    trimBytes [0x62, 0x74, 0x6e, 0x3a, 0x30 + d] = [0x62, 0x74, 0x6e, 0x3a, 0x30 + d] := by
  have h62 : isWsByte 0x62 = false := rfl
  simp [trimBytes, List.dropWhile, isWsByte_digit d, h62]

theorem jsParseIntDec_digit (d : Nat) (hd : d ≤ 9) :
    jsParseIntDec [0x30 + d] = some (d : Int) := by
  have hw : ([0x30 + d].dropWhile isWsByte) = [0x30 + d] := by
    simp [List.dropWhile, isWsByte_digit d]
  have hld : leadingDigits [0x30 + d] = [0x30 + d] := by
    have hdig : decide (0x30 ≤ 0x30 + d ∧ 0x30 + d ≤ 0x39) = true :=
      decide_eq_true (by omega)
    simp only [leadingDigits, List.takeWhile, hdig]
  have hdn : digitsToNat [0x30 + d] = d := by
    simp [digitsToNat]
  unfold jsParseIntDec
  rw [hw]
  rw [if_neg (fun h => absurd h.1 (by simp; omega))]
  rw [if_neg (fun h => absurd h.1 (by simp; omega))]
  rw [hld, if_neg (by simp), hdn]

theorem processTextLine_btnline (d : Nat) (hd : d ≤ 9) :
    processTextLine [0x62, 0x74, 0x6e, 0x3a, 0x30 + d] = some (SerialEvent.button (d : Int)) := by
  unfold processTextLine
  rw [if_pos (show ([0x62, 0x74, 0x6e, 0x3a, 0x30 + d] : List Nat).take 4 =
    [0x62, 0x74, 0x6e, 0x3a] from rfl)]
  rw [show ([0x62, 0x74, 0x6e, 0x3a, 0x30 + d] : List Nat).drop 4 = [0x30 + d] from rfl]
  rw [jsParseIntDec_digit d hd]

theorem processBuffer_cons_btn (g : List Nat) (d : Nat) (B' : List Nat) (hg : Garbage g)
    (hd : d ≤ 9) :
    processBuffer (g ++ 0x62 :: 0x74 :: 0x6e :: 0x3a :: (0x30 + d) :: 0x0a :: B') =
      (SerialEvent.button (d : Int) :: (processBuffer B').1, (processBuffer B').2) := by
  have hfind : findMessageStart (g ++ 0x62 :: 0x74 :: 0x6e :: 0x3a :: (0x30 + d) :: 0x0a :: B') =
      some g.length :=
    findMessageStart_text g hg 0x62 (Or.inl rfl) _
  have hdrop : (g ++ 0x62 :: 0x74 :: 0x6e :: 0x3a :: (0x30 + d) :: 0x0a :: B').drop g.length =
      0x62 :: 0x74 :: 0x6e :: 0x3a :: (0x30 + d) :: 0x0a :: B' :=
    List.drop_left g _
  have hlenbuf : (g ++ 0x62 :: 0x74 :: 0x6e :: 0x3a :: (0x30 + d) :: 0x0a :: B').length =
      g.length + 6 + B'.length := by
    simp only [List.length_append, List.length_cons]; omega
  have htext : tryParseTextLine (0x62 :: 0x74 :: 0x6e :: 0x3a :: (0x30 + d) :: 0x0a :: B') =
      some ([0x62, 0x74, 0x6e, 0x3a, 0x30 + d], 6) := by
    unfold tryParseTextLine
    rw [findNewline_btn d B']
    dsimp only
    rw [show (0x62 :: 0x74 :: 0x6e :: 0x3a :: (0x30 + d) :: 0x0a :: B' : List Nat).take 5 =
      [0x62, 0x74, 0x6e, 0x3a, 0x30 + d] from rfl]
    rw [trimBytes_btnline d]
  show processBufferFuel ((g ++ 0x62 :: 0x74 :: 0x6e :: 0x3a :: (0x30 + d) :: 0x0a :: B').length + 1) _ = _
  simp only [processBufferFuel]
  rw [if_neg (show ¬ (g ++ 0x62 :: 0x74 :: 0x6e :: 0x3a :: (0x30 + d) :: 0x0a :: B').length = 0 by
    rw [hlenbuf]; omega)]
  rw [hfind]
  dsimp only
  rw [hdrop]
  rw [if_neg (show ¬ ((0x62 :: 0x74 :: 0x6e :: 0x3a :: (0x30 + d) :: 0x0a :: B' : List Nat).getD 0 0 = 0xCA ∧
      2 ≤ (0x62 :: 0x74 :: 0x6e :: 0x3a :: (0x30 + d) :: 0x0a :: B' : List Nat).length) from
    fun h => absurd h.1 (by simp))]
  rw [htext]
  dsimp only
  rw [processTextLine_btnline d hd]
  rw [show (0x62 :: 0x74 :: 0x6e :: 0x3a :: (0x30 + d) :: 0x0a :: B' : List Nat).drop 6 = B' from rfl]
  rw [processBufferFuel_congr _ B' (B'.length + 1) (by rw [hlenbuf]; omega) (by omega)]
  rfl

/-! #### Terminal (quiescent) buffer lemmas -/

theorem processBuffer_nil : processBuffer [] = ([], []) := rfl

theorem processBuffer_garbage (g : List Nat) (hg : Garbage g) :
    processBuffer g = ([], trim10 g) := by
  by_cases h0 : g.length = 0
  · have : g = [] := List.length_eq_zero.mp h0
    subst this
    rfl
  · show processBufferFuel (g.length + 1) g = ([], trim10 g)
    simp only [processBufferFuel]
    rw [if_neg h0, findMessageStart_garbage_none g hg]

theorem processBuffer_garbage_CA (g : List Nat) (hg : Garbage g) :
    processBuffer (g ++ [0xCA]) = ([], trim10 (g ++ [0xCA])) := by
  unfold processBuffer
  simp only [processBufferFuel]
  have h0 : ¬ ((g ++ [0xCA] : List Nat).length = 0) := by simp
  rw [if_neg h0]
  rw [findMessageStart_garbage_CA_none g hg]

theorem processBuffer_truncated_thermal (g w : List Nat) (hg : Garbage g)
    (hlen : w.length < 1536) :
    processBuffer (g ++ 0xCA :: 0x01 :: w) = ([], 0xCA :: 0x01 :: w) := by
  have hfind : findMessageStart (g ++ 0xCA :: 0x01 :: w) = some g.length :=
    findMessageStart_binary g hg 0x01 (Or.inl rfl) w
  have hdrop : (g ++ 0xCA :: 0x01 :: w).drop g.length = 0xCA :: 0x01 :: w :=
    List.drop_left g _
  show processBufferFuel ((g ++ 0xCA :: 0x01 :: w).length + 1) _ = _
  simp only [processBufferFuel]
  rw [if_neg (show ¬ (g ++ 0xCA :: 0x01 :: w).length = 0 by simp)]
  rw [hfind]
  dsimp only
  rw [hdrop]
  rw [if_pos ⟨rfl, by simp only [List.length_cons]; omega⟩]
  rw [if_pos (show (0xCA :: 0x01 :: w : List Nat).getD 1 0 = 0x01 from rfl)]
  rw [if_pos (show (0xCA :: 0x01 :: w : List Nat).length < THERMAL_FRAME_SIZE by
    simp only [List.length_cons, THERMAL_FRAME_SIZE]; omega)]

theorem processBuffer_truncated_audio (g w : List Nat) (hg : Garbage g)
    (hlen : w.length < 64) :
    processBuffer (g ++ 0xCA :: 0x02 :: w) = ([], 0xCA :: 0x02 :: w) := by
  have hfind : findMessageStart (g ++ 0xCA :: 0x02 :: w) = some g.length :=
    findMessageStart_binary g hg 0x02 (Or.inr rfl) w
  have hdrop : (g ++ 0xCA :: 0x02 :: w).drop g.length = 0xCA :: 0x02 :: w :=
    List.drop_left g _
  show processBufferFuel ((g ++ 0xCA :: 0x02 :: w).length + 1) _ = _
  simp only [processBufferFuel]
  rw [if_neg (show ¬ (g ++ 0xCA :: 0x02 :: w).length = 0 by simp)]
  rw [hfind]
  dsimp only
  rw [hdrop]
  rw [if_pos ⟨rfl, by simp only [List.length_cons]; omega⟩]
  rw [if_neg (show ¬ (0xCA :: 0x02 :: w : List Nat).getD 1 0 = 0x01 by simp)]
  rw [if_pos (show (0xCA :: 0x02 :: w : List Nat).getD 1 0 = 0x02 from rfl)]
  rw [if_pos (show (0xCA :: 0x02 :: w : List Nat).length < AUDIO_FRAME_SIZE by
    simp only [List.length_cons, AUDIO_FRAME_SIZE]; omega)]

theorem processBuffer_text_wait (g : List Nat) (b : Nat) (rest : List Nat) (hg : Garbage g)
    (hb : b = 0x62 ∨ b = 0x64) (hnl : findNewline (b :: rest) = none)
    (hlen : ¬ (b :: rest : List Nat).length > 5000) :
    processBuffer (g ++ b :: rest) = ([], b :: rest) := by
  have hfind : findMessageStart (g ++ b :: rest) = some g.length :=
    findMessageStart_text g hg b hb rest
  have hdrop : (g ++ b :: rest).drop g.length = b :: rest := List.drop_left g _
  have htext : tryParseTextLine (b :: rest) = none := by
    unfold tryParseTextLine
    rw [hnl]
  show processBufferFuel ((g ++ b :: rest).length + 1) _ = _
  simp only [processBufferFuel]
  rw [if_neg (show ¬ (g ++ b :: rest).length = 0 by simp)]
  rw [hfind]
  dsimp only
  rw [hdrop]
  rw [if_neg (show ¬ ((b :: rest : List Nat).getD 0 0 = 0xCA ∧
      2 ≤ (b :: rest : List Nat).length) from
    fun h => by rcases hb with rfl | rfl <;> exact absurd h.1 (by simp))]
  rw [htext]
  dsimp only
  rw [if_neg hlen]

theorem processBuffer_cons_audio (g p B' : List Nat) (hg : Garbage g)
    (hp : p.length = 64) :
    processBuffer (g ++ 0xCA :: 0x02 :: (p ++ B')) =
      (SerialEvent.audio p :: (processBuffer B').1, (processBuffer B').2) := by
  have hfind : findMessageStart (g ++ 0xCA :: 0x02 :: (p ++ B')) = some g.length :=
    findMessageStart_binary g hg 0x02 (Or.inr rfl) (p ++ B')
  have hdrop : (g ++ 0xCA :: 0x02 :: (p ++ B')).drop g.length = 0xCA :: 0x02 :: (p ++ B') :=
    List.drop_left g _
  have hassoc : (0xCA :: 0x02 :: (p ++ B') : List Nat) = (0xCA :: 0x02 :: p) ++ B' := by simp
  have hlenfr : (0xCA :: 0x02 :: p : List Nat).length = AUDIO_FRAME_SIZE := by
    simp [hp, AUDIO_FRAME_SIZE]
  have htake : (0xCA :: 0x02 :: (p ++ B')).take AUDIO_FRAME_SIZE = 0xCA :: 0x02 :: p := by
    rw [hassoc]; exact List.take_left' hlenfr
  have hdrop2 : (0xCA :: 0x02 :: (p ++ B')).drop AUDIO_FRAME_SIZE = B' := by
    rw [hassoc]; exact List.drop_left' hlenfr
  have hlenbuf : (g ++ 0xCA :: 0x02 :: (p ++ B')).length = g.length + 66 + B'.length := by
    simp only [List.length_append, List.length_cons, hp]; omega
  show processBufferFuel ((g ++ 0xCA :: 0x02 :: (p ++ B')).length + 1) _ = _
  simp only [processBufferFuel]
  rw [if_neg (show ¬ (g ++ 0xCA :: 0x02 :: (p ++ B')).length = 0 by rw [hlenbuf]; omega)]
  rw [hfind]
  dsimp only
  rw [hdrop]
  rw [if_pos ⟨rfl, by simp only [List.length_cons]; omega⟩]
  rw [if_neg (show ¬ (0xCA :: 0x02 :: (p ++ B') : List Nat).getD 1 0 = 0x01 by simp)]
  rw [if_pos (show (0xCA :: 0x02 :: (p ++ B') : List Nat).getD 1 0 = 0x02 from rfl)]
  rw [if_neg (show ¬ (0xCA :: 0x02 :: (p ++ B') : List Nat).length < AUDIO_FRAME_SIZE by
    simp only [List.length_cons, List.length_append, hp, AUDIO_FRAME_SIZE]; omega)]
  rw [htake, hdrop2]
  rw [processBufferFuel_congr _ B' (B'.length + 1) (by rw [hlenbuf]; omega) (by omega)]
  rfl


/-! ### C7: no partial consumption of truncated frames -/

/-- C7: when the buffer begins with a valid binary frame start (0xCA and
a recognized type byte) but holds fewer bytes than that type's fixed
frame length, `processBuffer` dispatches nothing and consumes nothing:
the buffer is returned unchanged. -/
theorem C7_no_partial_consumption (buf : List Nat)
    (h : (buf.take 2 = [0xCA, 0x01] ∧ buf.length < THERMAL_FRAME_SIZE) ∨
         (buf.take 2 = [0xCA, 0x02] ∧ buf.length < AUDIO_FRAME_SIZE)) :
    processBuffer buf = ([], buf) := by
  rcases h with ⟨h2, hlen⟩ | ⟨h2, hlen⟩
  · obtain ⟨w, rfl⟩ : ∃ w, buf = 0xCA :: 0x01 :: w := by
      cases buf with
      | nil => simp at h2
      | cons a buf' =>
        cases buf' with
        | nil => simp at h2
        | cons b w =>
          simp at h2
          exact ⟨w, by rw [h2.1, h2.2]⟩
    have hl : w.length < 1536 := by
      simp only [List.length_cons, THERMAL_FRAME_SIZE] at hlen
      omega
    have h := processBuffer_truncated_thermal [] w garbage_nil hl
    simpa using h
  · obtain ⟨w, rfl⟩ : ∃ w, buf = 0xCA :: 0x02 :: w := by
      cases buf with
      | nil => simp at h2
      | cons a buf' =>
        cases buf' with
        | nil => simp at h2
        | cons b w =>
          simp at h2
          exact ⟨w, by rw [h2.1, h2.2]⟩
    have hl : w.length < 64 := by
      simp only [List.length_cons, AUDIO_FRAME_SIZE] at hlen
      omega
    have h := processBuffer_truncated_audio [] w garbage_nil hl
    simpa using h

theorem C7_no_partial_consumption_witness :
    processBuffer [0xCA, 0x01, 0, 0] = ([], [0xCA, 0x01, 0, 0]) :=
  C7_no_partial_consumption _ (Or.inl ⟨rfl, by decide⟩)

/-! ### C9: concrete decode scenarios -/

theorem getD_replicate_zero (n k : Nat) : (List.replicate n (0 : Nat)).getD k 0 = 0 := by
  induction n generalizing k with
  | zero => rfl
  | succ m ih =>
    cases k with
    | zero => rfl
    | succ j => simpa [List.replicate_succ, List.getD_cons_succ] using ih j

theorem parseThermalFrame_zero :
    parseThermalFrame (0xCA :: 0x01 :: List.replicate 1536 0) = List.replicate 768 (0 : ℚ) := by
  have hbyte : ∀ i : Nat,
      ((0xCA :: 0x01 :: List.replicate 1536 0 : List Nat).getD (2 + i * 2) 0 +
       (0xCA :: 0x01 :: List.replicate 1536 0 : List Nat).getD (2 + i * 2 + 1) 0 * 256) = 0 := by
    intro i
    have e1 : 2 + i * 2 = i * 2 + 1 + 1 := by ring
    rw [e1, List.getD_cons_succ, List.getD_cons_succ, List.getD_cons_succ,
      List.getD_cons_succ, getD_replicate_zero, getD_replicate_zero]
  unfold parseThermalFrame
  have hmap : ∀ i ∈ List.range 768,
      (((0xCA :: 0x01 :: List.replicate 1536 0 : List Nat).getD (2 + i * 2) 0 +
        (0xCA :: 0x01 :: List.replicate 1536 0 : List Nat).getD (2 + i * 2 + 1) 0 * 256 : Nat) : ℚ) / 10 =
      (0 : ℚ) := by
    intro i _
    rw [hbyte i]
    norm_num
  rw [List.map_congr_left hmap]
  simp

set_option maxRecDepth 40000

/-- C9: the three concrete scenarios.  Bytes 0xCA 0x01 + 1536 zero bytes
dispatch a thermal frame of 768 values all 0.0; bytes 0xCA 0x02 + an
all-zero 64-byte ADPCM packet dispatch that packet, and decoding it from
its embedded (predictor 0, stepIndex 0) state yields 118 samples all
equal to 0 (the zero nibble adds `step >> 3 = 0` at step 7, not an
assumed zero delta); the text line "btn:2\n" dispatches a button event
with value 2. -/
theorem C9_concrete_decode_scenarios :
    processBuffer (0xCA :: 0x01 :: List.replicate 1536 0) =
      ([SerialEvent.thermal (List.replicate 768 (0 : ℚ))], []) ∧
    processBuffer (0xCA :: 0x02 :: List.replicate 64 0) =
      ([SerialEvent.audio (List.replicate 64 0)], []) ∧
    (parseSamples constOracle resetState (List.replicate 64 0)).1 = List.replicate 118 0 ∧
    processBuffer [0x62, 0x74, 0x6e, 0x3a, 0x32, 0x0a] = ([SerialEvent.button 2], []) := by
  refine ⟨?_, ?_, ?_, ?_⟩
  · have h := processBuffer_cons_thermal [] (List.replicate 1536 0) [] garbage_nil (by simp)
    simp only [List.nil_append, List.append_nil] at h
    rw [h, parseThermalFrame_zero]
    rfl
  · have h := processBuffer_cons_audio [] (List.replicate 64 0) [] garbage_nil (by simp)
    simp only [List.nil_append, List.append_nil] at h
    rw [h]
    rfl
  · decide
  · have h := processBuffer_cons_btn [] 2 [] garbage_nil (by omega)
    simp only [List.nil_append] at h
    norm_num at h
    rw [h]
    rfl

/-! ### C6: demultiplexer robustness -/

/-- The audio packet payload used in the counterexample: a well-formed
64-byte ADPCM packet one of whose data bytes happens to be 0x0a. -/
def lostAudioPayload : List Nat := List.replicate 5 0 ++ 0x0a :: List.replicate 58 0

/-- A single garbage byte 'b' (0x62) followed by a well-formed audio
frame whose payload contains a newline byte. -/
def C6badInput : List Nat := 0x62 :: 0xCA :: 0x02 :: lostAudioPayload

/-- C6 fails as stated: one arbitrary garbage byte (0x62, the text-start
byte 'b') in front of a well-formed audio frame makes `processBuffer`
treat the frame's bytes as a text line (terminated by the 0x0a inside
the frame payload), so the frame is consumed as garbage and never
dispatched: the demultiplexer emits no event at all instead of the one
well-formed frame. -/
theorem C6_demux_robustness_counterexample :
    C6badInput = [0x62] ++ (0xCA :: 0x02 :: lostAudioPayload) ∧
    lostAudioPayload.length = 64 ∧
    (processBuffer C6badInput).1 = [] ∧
    (processBuffer C6badInput).1 ≠ [SerialEvent.audio lostAudioPayload] := by
  refine ⟨rfl, by decide, by decide, by decide⟩

/-- The wire frames of the protocol (§6): thermal and audio binary
frames and the `btn:<d>` text line. -/
inductive WireFrame where
  | thermal (payload : List Nat)
  | audio (payload : List Nat)
  | btn (d : Nat)
deriving Repr, DecidableEq

/-- The bytes of a frame on the wire. -/
def WireFrame.bytes : WireFrame → List Nat
  | .thermal p => 0xCA :: 0x01 :: p
  | .audio p => 0xCA :: 0x02 :: p
  | .btn d => [0x62, 0x74, 0x6e, 0x3a, 0x30 + d, 0x0a]

/-- Well-formedness: fixed payload sizes for the binary frames, a single
decimal digit for the button line. -/
def WireFrame.WF : WireFrame → Prop
  | .thermal p => p.length = 1536
  | .audio p => p.length = 64
  | .btn d => d ≤ 9

/-- The event `processBuffer` dispatches for a (complete) frame. -/
def WireFrame.event : WireFrame → SerialEvent
  | .thermal p => .thermal (parseThermalFrame (0xCA :: 0x01 :: p))
  | .audio p => .audio p
  | .btn d => .button (d : Int)

/-- A stream: garbage interleaved *between* frames, plus trailing
garbage. -/
def streamBytes : List (List Nat × WireFrame) → List Nat → List Nat
  | [], tailg => tailg
  | (g, f) :: segs, tailg => g ++ f.bytes ++ streamBytes segs tailg

def SegsOK (segs : List (List Nat × WireFrame)) : Prop :=
  ∀ s ∈ segs, Garbage s.1 ∧ s.2.WF

/-- Feeding the whole stream to `processBuffer` in one buffer dispatches
exactly the frames' events, in order, leaving only trimmed trailing
garbage. -/
theorem processBuffer_stream (segs : List (List Nat × WireFrame)) (tailg : List Nat)
    (hsegs : SegsOK segs) (htail : Garbage tailg) :
    processBuffer (streamBytes segs tailg) =
      (segs.map (fun s => s.2.event), trim10 tailg) := by
  induction segs with
  | nil => exact processBuffer_garbage tailg htail
  | cons s segs ih =>
    obtain ⟨g, f⟩ := s
    have hg : Garbage g := (hsegs (g, f) (by simp)).1
    have hwf : f.WF := (hsegs (g, f) (by simp)).2
    have ih' := ih (fun x hx => hsegs x (by simp [hx]))
    cases f with
    | thermal p =>
      have hb : streamBytes ((g, WireFrame.thermal p) :: segs) tailg =
          g ++ 0xCA :: 0x01 :: (p ++ streamBytes segs tailg) := by
        simp [streamBytes, WireFrame.bytes]
      rw [hb, processBuffer_cons_thermal g p _ hg hwf, ih']
      rfl
    | audio p =>
      have hb : streamBytes ((g, WireFrame.audio p) :: segs) tailg =
          g ++ 0xCA :: 0x02 :: (p ++ streamBytes segs tailg) := by
        simp [streamBytes, WireFrame.bytes]
      rw [hb, processBuffer_cons_audio g p _ hg hwf, ih']
      rfl
    | btn d =>
      have hb : streamBytes ((g, WireFrame.btn d) :: segs) tailg =
          g ++ 0x62 :: 0x74 :: 0x6e :: 0x3a :: (0x30 + d) :: 0x0a :: streamBytes segs tailg := by
        simp [streamBytes, WireFrame.bytes]
      rw [hb, processBuffer_cons_btn g d _ hg hwf, ih']
      rfl

/-! #### Quiescent residuals -/

theorem trim10_length (l : List Nat) : (trim10 l).length ≤ 10 := by
  unfold trim10
  split_ifs with h
  · rw [List.length_drop]; omega
  · omega

theorem trim10_short (l : List Nat) (h : l.length ≤ 10) : trim10 l = l := by
  unfold trim10
  rw [if_neg (by omega)]

theorem trim10_drop (l : List Nat) :
    ∃ k, trim10 l = l.drop k ∧ (k = 0 ∨ k + 10 = l.length) := by
  unfold trim10
  split_ifs with h
  · exact ⟨l.length - 10, rfl, Or.inr (by omega)⟩
  · exact ⟨0, rfl, Or.inl rfl⟩

theorem trim10_subset (l : List Nat) : ∀ b ∈ trim10 l, b ∈ l := by
  obtain ⟨k, hk, -⟩ := trim10_drop l
  rw [hk]
  exact fun b hb => List.drop_subset k l hb

theorem garbage_trim10 {l : List Nat} (hl : Garbage l) : Garbage (trim10 l) :=
  garbage_of_subset hl (trim10_subset l)

theorem quiet_garbage (g : List Nat) (hg : Garbage g) (hlen : g.length ≤ 10) :
    processBuffer g = ([], g) := by
  rw [processBuffer_garbage g hg, trim10_short g hlen]

theorem quiet_garbage_CA (g : List Nat) (hg : Garbage g)
    (hlen : (g ++ [0xCA] : List Nat).length ≤ 10) :
    processBuffer (g ++ [0xCA]) = ([], g ++ [0xCA]) := by
  rw [processBuffer_garbage_CA g hg, trim10_short _ hlen]

theorem findNewline_nothing (l : List Nat) (h : ∀ b ∈ l, ¬ b = 0x0a) :
    findNewline l = none := by
  induction l with
  | nil => rfl
  | cons b rest ih =>
    simp only [findNewline, if_neg (h b (by simp))]
    rw [ih (fun x hx => h x (by simp [hx]))]
    rfl

theorem take_cons2 (a b : Nat) (l : List Nat) (m : Nat) (h : 2 ≤ m) :
    (a :: b :: l).take m = a :: b :: l.take (m - 2) := by
  obtain ⟨m', rfl⟩ : ∃ m', m = m' + 1 + 1 := ⟨m - 2, by omega⟩
  rw [List.take_succ_cons, List.take_succ_cons]
  congr 2

/-- A partial button line (1-5 of its 6 bytes) behind garbage is left
waiting in the buffer untouched. -/
theorem btn_partial_case (g : List Nat) (hg : Garbage g) (d : Nat) (hd : d ≤ 9) (m : Nat)
    (hm1 : 1 ≤ m) (hm5 : m ≤ 5) :
    processBuffer (g ++ (WireFrame.btn d).bytes.take m) =
      ([], (WireFrame.btn d).bytes.take m) := by
  interval_cases m
  · exact processBuffer_text_wait g 0x62 [] hg (Or.inl rfl) (by decide) (by decide)
  · exact processBuffer_text_wait g 0x62 [0x74] hg (Or.inl rfl) (by decide) (by decide)
  · exact processBuffer_text_wait g 0x62 [0x74, 0x6e] hg (Or.inl rfl) (by decide) (by decide)
  · exact processBuffer_text_wait g 0x62 [0x74, 0x6e, 0x3a] hg (Or.inl rfl) (by decide) (by decide)
  · exact processBuffer_text_wait g 0x62 [0x74, 0x6e, 0x3a, 0x30 + d] hg (Or.inl rfl)
      (findNewline_nothing _ (by
        intro b hb
        simp at hb
        rcases hb with rfl | rfl | rfl | rfl | rfl <;> omega))
      (by simp)

/-- One `processBuffer` call on any prefix `B` of a well-formed stream
dispatches exactly the events of the frames `B` fully contains, in
order, and leaves a quiescent residual of at most 1537 bytes that still
aligns with the rest of the stream. -/
theorem processBuffer_consume :
    ∀ (segs : List (List Nat × WireFrame)) (tailg B rem : List Nat),
      SegsOK segs → Garbage tailg →
      B ++ rem = streamBytes segs tailg →
      ∃ (j : Nat) (segs₂ : List (List Nat × WireFrame)) (tailg₂ : List Nat),
        (processBuffer B).1 = (segs.take j).map (fun s => s.2.event) ∧
        segs₂.map (fun s => s.2.event) = (segs.drop j).map (fun s => s.2.event) ∧
        SegsOK segs₂ ∧ Garbage tailg₂ ∧
        (processBuffer B).2 ++ rem = streamBytes segs₂ tailg₂ ∧
        processBuffer (processBuffer B).2 = ([], (processBuffer B).2) ∧
        (processBuffer B).2.length ≤ 1537 := by
  intro segs
  induction segs with
  | nil =>
    intro tailg B rem _ htail heq
    have heq2 : B ++ rem = tailg := heq
    have hB : Garbage B := garbage_of_subset htail (fun b hb => by
      rw [← heq2]; exact List.mem_append_left rem hb)
    have hrem : Garbage rem := garbage_of_subset htail (fun b hb => by
      rw [← heq2]; exact List.mem_append_right B hb)
    have hpb := processBuffer_garbage B hB
    refine ⟨0, [], trim10 B ++ rem, by rw [hpb]; rfl, rfl, by intro s hs; simp at hs,
      ?_, ?_, ?_, ?_⟩
    · intro b hb
      rcases List.mem_append.mp hb with hb1 | hb2
      · exact hB b (trim10_subset B b hb1)
      · exact hrem b hb2
    · rw [hpb]
      rfl
    · rw [hpb]
      exact quiet_garbage _ (garbage_trim10 hB) (trim10_length B)
    · rw [hpb]
      show (trim10 B).length ≤ 1537
      have := trim10_length B
      omega
  | cons s rest ih =>
    intro tailg B rem hsegs htail heq
    obtain ⟨g, f⟩ := s
    have hg : Garbage g := (hsegs (g, f) (by simp)).1
    have hwf : f.WF := (hsegs (g, f) (by simp)).2
    have hrest : SegsOK rest := fun x hx => hsegs x (by simp [hx])
    have heqR : B ++ rem = g ++ (f.bytes ++ streamBytes rest tailg) := by
      rw [heq]; simp [streamBytes]
    have heqL : B ++ rem = (g ++ f.bytes) ++ streamBytes rest tailg := by
      rw [heq]; simp [streamBytes]
    by_cases hcase1 : B.length ≤ g.length
    · -- B lies inside the leading garbage
      have hBg : B = g.take B.length := by
        have h1 : (B ++ rem).take B.length = B := List.take_left B rem
        rw [heqR, List.take_append_of_le_length hcase1] at h1
        exact h1.symm
      have hB : Garbage B := by
        rw [hBg]; exact garbage_of_subset hg (fun b hb => List.take_subset _ _ hb)
      have hremeq : rem = g.drop B.length ++ (f.bytes ++ streamBytes rest tailg) := by
        have h1 : (B ++ rem).drop B.length = rem := List.drop_left B rem
        rw [heqR, List.drop_append_of_le_length hcase1] at h1
        exact h1.symm
      have hpb := processBuffer_garbage B hB
      refine ⟨0, (trim10 B ++ g.drop B.length, f) :: rest, tailg, by rw [hpb]; rfl, by simp,
        ?_, htail, ?_, ?_, ?_⟩
      · intro x hx
        rcases List.mem_cons.mp hx with rfl | hx'
        · refine ⟨?_, hwf⟩
          intro b hb
          rcases List.mem_append.mp hb with hb1 | hb2
          · exact hB b (trim10_subset B b hb1)
          · exact hg b (List.drop_subset _ _ hb2)
        · exact hrest x hx'
      · rw [hpb]
        show trim10 B ++ rem = streamBytes ((trim10 B ++ g.drop B.length, f) :: rest) tailg
        rw [hremeq]
        simp [streamBytes]
      · rw [hpb]
        exact quiet_garbage _ (garbage_trim10 hB) (trim10_length B)
      · rw [hpb]
        show (trim10 B).length ≤ 1537
        have := trim10_length B
        omega
    · push_neg at hcase1
      by_cases hcase2 : B.length < g.length + f.bytes.length
      · -- B ends inside the frame: truncated frame cases
        have hm1 : 1 ≤ B.length - g.length := by omega
        have hm2 : B.length - g.length < f.bytes.length := by omega
        have hBsplit : B = g ++ f.bytes.take (B.length - g.length) := by
          have h1 : (B ++ rem).take B.length = B := List.take_left B rem
          rw [heqR, List.take_append_eq_append_take,
            List.take_of_length_le (by omega),
            List.take_append_of_le_length (by omega)] at h1
          exact h1.symm
        have hremeq : rem = f.bytes.drop (B.length - g.length) ++ streamBytes rest tailg := by
          have h1 : (B ++ rem).drop B.length = rem := List.drop_left B rem
          rw [heqR, List.drop_append_eq_append_drop,
            List.drop_eq_nil_of_le (by omega),
            List.drop_append_of_le_length (by omega)] at h1
          simp at h1
          exact h1.symm
        -- common pieces for all three frame kinds
        have hfin : ∀ r' : List Nat,
            r' = f.bytes.take (B.length - g.length) →
            r' ++ rem = streamBytes (([], f) :: rest) tailg := by
          intro r' hr'
          rw [hr', hremeq]
          show f.bytes.take (B.length - g.length) ++
              (f.bytes.drop (B.length - g.length) ++ streamBytes rest tailg) =
            streamBytes (([], f) :: rest) tailg
          rw [← List.append_assoc, List.take_append_drop]
          simp [streamBytes]
        cases f with
        | thermal p =>
          have hp : p.length = 1536 := hwf
          simp only [WireFrame.bytes, List.length_cons] at hm2
          by_cases hmone : B.length - g.length = 1
          · -- only the 0xCA byte arrived
            have hfp : (WireFrame.thermal p).bytes.take (B.length - g.length) = [0xCA] := by
              rw [hmone]; rfl
            rw [hfp] at hBsplit
            have hpb : processBuffer B = ([], trim10 (g ++ [0xCA])) := by
              rw [hBsplit]; exact processBuffer_garbage_CA g hg
            obtain ⟨k, hk, hkor⟩ := trim10_drop (g ++ [0xCA])
            have hkg : k ≤ g.length := by
              rcases hkor with rfl | hkor
              · omega
              · simp only [List.length_append, List.length_cons, List.length_nil] at hkor
                omega
            have hdropk : (g ++ [0xCA] : List Nat).drop k = g.drop k ++ [0xCA] :=
              List.drop_append_of_le_length hkg
            have hr' : trim10 (g ++ [0xCA]) = g.drop k ++ [0xCA] := by rw [hk, hdropk]
            refine ⟨0, (g.drop k, WireFrame.thermal p) :: rest, tailg, by rw [hpb]; rfl, by simp,
              ?_, htail, ?_, ?_, ?_⟩
            · intro x hx
              rcases List.mem_cons.mp hx with rfl | hx'
              · exact ⟨garbage_of_subset hg (fun b hb => List.drop_subset _ _ hb), hp⟩
              · exact hrest x hx'
            · rw [hpb, hr', hremeq, hmone]
              show (g.drop k ++ [0xCA]) ++
                  ((WireFrame.thermal p).bytes.drop 1 ++ streamBytes rest tailg) =
                streamBytes ((g.drop k, WireFrame.thermal p) :: rest) tailg
              simp [streamBytes, WireFrame.bytes]
            · rw [hpb, hr']
              refine quiet_garbage_CA (g.drop k) (garbage_of_subset hg (fun b hb => List.drop_subset _ _ hb)) ?_
              rw [← hdropk, ← hk]
              exact trim10_length _
            · rw [hpb]
              show (trim10 (g ++ [0xCA])).length ≤ 1537
              have := trim10_length (g ++ [0xCA])
              omega
          · -- at least the marker and type byte arrived
            have hm2' : 2 ≤ B.length - g.length := by omega
            have hfp : (WireFrame.thermal p).bytes.take (B.length - g.length) =
                0xCA :: 0x01 :: p.take (B.length - g.length - 2) :=
              take_cons2 _ _ _ _ hm2'
            have hlt : (p.take (B.length - g.length - 2)).length < 1536 := by
              rw [List.length_take]; omega
            have hpb : processBuffer B = ([], 0xCA :: 0x01 :: p.take (B.length - g.length - 2)) := by
              conv_lhs => rw [hBsplit, hfp]
              exact processBuffer_truncated_thermal g _ hg hlt
            refine ⟨0, ([], WireFrame.thermal p) :: rest, tailg, by rw [hpb]; rfl, by simp,
              ?_, htail, ?_, ?_, ?_⟩
            · intro x hx
              rcases List.mem_cons.mp hx with rfl | hx'
              · exact ⟨garbage_nil, hp⟩
              · exact hrest x hx'
            · rw [hpb]
              exact hfin _ hfp.symm
            · rw [hpb]
              have h := processBuffer_truncated_thermal [] (p.take (B.length - g.length - 2))
                garbage_nil hlt
              simpa using h
            · rw [hpb]
              show (0xCA :: 0x01 :: p.take (B.length - g.length - 2) : List Nat).length ≤ 1537
              simp only [List.length_cons, List.length_take]
              omega
        | audio p =>
          have hp : p.length = 64 := hwf
          simp only [WireFrame.bytes, List.length_cons] at hm2
          by_cases hmone : B.length - g.length = 1
          · have hfp : (WireFrame.audio p).bytes.take (B.length - g.length) = [0xCA] := by
              rw [hmone]; rfl
            rw [hfp] at hBsplit
            have hpb : processBuffer B = ([], trim10 (g ++ [0xCA])) := by
              rw [hBsplit]; exact processBuffer_garbage_CA g hg
            obtain ⟨k, hk, hkor⟩ := trim10_drop (g ++ [0xCA])
            have hkg : k ≤ g.length := by
              rcases hkor with rfl | hkor
              · omega
              · simp only [List.length_append, List.length_cons, List.length_nil] at hkor
                omega
            have hdropk : (g ++ [0xCA] : List Nat).drop k = g.drop k ++ [0xCA] :=
              List.drop_append_of_le_length hkg
            have hr' : trim10 (g ++ [0xCA]) = g.drop k ++ [0xCA] := by rw [hk, hdropk]
            refine ⟨0, (g.drop k, WireFrame.audio p) :: rest, tailg, by rw [hpb]; rfl, by simp,
              ?_, htail, ?_, ?_, ?_⟩
            · intro x hx
              rcases List.mem_cons.mp hx with rfl | hx'
              · exact ⟨garbage_of_subset hg (fun b hb => List.drop_subset _ _ hb), hp⟩
              · exact hrest x hx'
            · rw [hpb, hr', hremeq, hmone]
              show (g.drop k ++ [0xCA]) ++
                  ((WireFrame.audio p).bytes.drop 1 ++ streamBytes rest tailg) =
                streamBytes ((g.drop k, WireFrame.audio p) :: rest) tailg
              simp [streamBytes, WireFrame.bytes]
            · rw [hpb, hr']
              refine quiet_garbage_CA (g.drop k) (garbage_of_subset hg (fun b hb => List.drop_subset _ _ hb)) ?_
              rw [← hdropk, ← hk]
              exact trim10_length _
            · rw [hpb]
              show (trim10 (g ++ [0xCA])).length ≤ 1537
              have := trim10_length (g ++ [0xCA])
              omega
          · have hm2' : 2 ≤ B.length - g.length := by omega
            have hfp : (WireFrame.audio p).bytes.take (B.length - g.length) =
                0xCA :: 0x02 :: p.take (B.length - g.length - 2) :=
              take_cons2 _ _ _ _ hm2'
            have hlt : (p.take (B.length - g.length - 2)).length < 64 := by
              rw [List.length_take]; omega
            have hpb : processBuffer B = ([], 0xCA :: 0x02 :: p.take (B.length - g.length - 2)) := by
              conv_lhs => rw [hBsplit, hfp]
              exact processBuffer_truncated_audio g _ hg hlt
            refine ⟨0, ([], WireFrame.audio p) :: rest, tailg, by rw [hpb]; rfl, by simp,
              ?_, htail, ?_, ?_, ?_⟩
            · intro x hx
              rcases List.mem_cons.mp hx with rfl | hx'
              · exact ⟨garbage_nil, hp⟩
              · exact hrest x hx'
            · rw [hpb]
              exact hfin _ hfp.symm
            · rw [hpb]
              have h := processBuffer_truncated_audio [] (p.take (B.length - g.length - 2))
                garbage_nil hlt
              simpa using h
            · rw [hpb]
              show (0xCA :: 0x02 :: p.take (B.length - g.length - 2) : List Nat).length ≤ 1537
              simp only [List.length_cons, List.length_take]
              omega
        | btn d =>
          have hd : d ≤ 9 := hwf
          simp only [WireFrame.bytes, List.length_cons, List.length_nil] at hm2
          have hm5 : B.length - g.length ≤ 5 := by omega
          have hpb : processBuffer B = ([], (WireFrame.btn d).bytes.take (B.length - g.length)) := by
            conv_lhs => rw [hBsplit]
            exact btn_partial_case g hg d hd _ hm1 hm5
          refine ⟨0, ([], WireFrame.btn d) :: rest, tailg, by rw [hpb]; rfl, by simp,
            ?_, htail, ?_, ?_, ?_⟩
          · intro x hx
            rcases List.mem_cons.mp hx with rfl | hx'
            · exact ⟨garbage_nil, hd⟩
            · exact hrest x hx'
          · rw [hpb]
            exact hfin _ rfl
          · rw [hpb]
            have h := btn_partial_case [] garbage_nil d hd _ hm1 hm5
            simpa using h
          · rw [hpb]
            show ((WireFrame.btn d).bytes.take (B.length - g.length)).length ≤ 1537
            simp only [List.length_take]
            have : (WireFrame.btn d).bytes.length = 6 := by simp [WireFrame.bytes]
            omega
      · -- B contains the whole frame
        push_neg at hcase2
        have heqtake : B.take (g.length + f.bytes.length) = g ++ f.bytes := by
          have h1 : (B ++ rem).take (g.length + f.bytes.length) =
              B.take (g.length + f.bytes.length) :=
            List.take_append_of_le_length hcase2
          rw [heqL, List.take_left' (by simp)] at h1
          exact h1.symm
        have hB'rem : B.drop (g.length + f.bytes.length) ++ rem = streamBytes rest tailg := by
          have h1 : (B ++ rem).drop (g.length + f.bytes.length) =
              B.drop (g.length + f.bytes.length) ++ rem :=
            List.drop_append_of_le_length hcase2
          rw [heqL, List.drop_left' (by simp)] at h1
          exact h1.symm
        have hBdef : B = (g ++ f.bytes) ++ B.drop (g.length + f.bytes.length) := by
          conv_lhs => rw [← List.take_append_drop (g.length + f.bytes.length) B]
          rw [heqtake]
        obtain ⟨j', segs₂, tailg₂, e1, e2, e3, e4, e5, e6, e7⟩ :=
          ih tailg (B.drop (g.length + f.bytes.length)) rem hrest htail hB'rem
        have hstep : processBuffer B =
            (f.event :: (processBuffer (B.drop (g.length + f.bytes.length))).1,
             (processBuffer (B.drop (g.length + f.bytes.length))).2) := by
          cases f with
          | thermal p =>
            have hform : (g ++ (WireFrame.thermal p).bytes) ++ B.drop (g.length + (WireFrame.thermal p).bytes.length) =
                g ++ 0xCA :: 0x01 :: (p ++ B.drop (g.length + (WireFrame.thermal p).bytes.length)) := by
              simp [WireFrame.bytes]
            conv_lhs => rw [hBdef]
            rw [hform, processBuffer_cons_thermal g p _ hg hwf]
            rfl
          | audio p =>
            have hform : (g ++ (WireFrame.audio p).bytes) ++ B.drop (g.length + (WireFrame.audio p).bytes.length) =
                g ++ 0xCA :: 0x02 :: (p ++ B.drop (g.length + (WireFrame.audio p).bytes.length)) := by
              simp [WireFrame.bytes]
            conv_lhs => rw [hBdef]
            rw [hform, processBuffer_cons_audio g p _ hg hwf]
            rfl
          | btn d =>
            have hform : (g ++ (WireFrame.btn d).bytes) ++ B.drop (g.length + (WireFrame.btn d).bytes.length) =
                g ++ 0x62 :: 0x74 :: 0x6e :: 0x3a :: (0x30 + d) :: 0x0a ::
                  B.drop (g.length + (WireFrame.btn d).bytes.length) := by
              simp [WireFrame.bytes]
            conv_lhs => rw [hBdef]
            rw [hform, processBuffer_cons_btn g d _ hg hwf]
            rfl
        refine ⟨j' + 1, segs₂, tailg₂, ?_, ?_, e3, e4, ?_, ?_, ?_⟩
        · rw [hstep]
          simp only [List.take_succ_cons, List.map_cons]
          rw [e1]
        · simpa using e2
        · rw [hstep]
          exact e5
        · rw [hstep]
          exact e6
        · rw [hstep]
          exact e7

/-- The host read loop: each incoming chunk is appended to the buffer
and `processBuffer` is run (web/serial.js lines 181-209). -/
def feedChunks : List Nat → List (List Nat) → List SerialEvent × List Nat
  | st, [] => ([], st)
  | st, c :: cs =>
    ((processBuffer (st ++ c)).1 ++ (feedChunks (processBuffer (st ++ c)).2 cs).1,
     (feedChunks (processBuffer (st ++ c)).2 cs).2)

theorem feedChunks_stream :
    ∀ (chunks : List (List Nat)) (r : List Nat) (segs : List (List Nat × WireFrame))
      (tailg : List Nat),
      SegsOK segs → Garbage tailg →
      processBuffer r = ([], r) → r.length ≤ 1537 →
      r ++ chunks.flatten = streamBytes segs tailg →
      (feedChunks r chunks).1 = segs.map (fun s => s.2.event) ∧
      (∀ pre post, chunks = pre ++ post → ((feedChunks r pre).2).length ≤ 1537) := by
  intro chunks
  induction chunks with
  | nil =>
    intro r segs tailg hsegs htail hquiet hlen heq
    have heq' : r = streamBytes segs tailg := by simpa using heq
    constructor
    · cases segs with
      | nil => rfl
      | cons s rest =>
        exfalso
        obtain ⟨g, f⟩ := s
        have hg : Garbage g := (hsegs (g, f) (by simp)).1
        have hwf : f.WF := (hsegs (g, f) (by simp)).2
        cases f with
        | thermal p =>
          have hb : streamBytes ((g, WireFrame.thermal p) :: rest) tailg =
              g ++ 0xCA :: 0x01 :: (p ++ streamBytes rest tailg) := by
            simp [streamBytes, WireFrame.bytes]
          have hstep := processBuffer_cons_thermal g p (streamBytes rest tailg) hg hwf
          rw [← hb, ← heq', hquiet] at hstep
          simp at hstep
        | audio p =>
          have hb : streamBytes ((g, WireFrame.audio p) :: rest) tailg =
              g ++ 0xCA :: 0x02 :: (p ++ streamBytes rest tailg) := by
            simp [streamBytes, WireFrame.bytes]
          have hstep := processBuffer_cons_audio g p (streamBytes rest tailg) hg hwf
          rw [← hb, ← heq', hquiet] at hstep
          simp at hstep
        | btn d =>
          have hb : streamBytes ((g, WireFrame.btn d) :: rest) tailg =
              g ++ 0x62 :: 0x74 :: 0x6e :: 0x3a :: (0x30 + d) :: 0x0a ::
                streamBytes rest tailg := by
            simp [streamBytes, WireFrame.bytes]
          have hstep := processBuffer_cons_btn g d (streamBytes rest tailg) hg hwf
          rw [← hb, ← heq', hquiet] at hstep
          simp at hstep
    · intro pre post hsplit
      have hpre : pre = [] := by
        cases pre with
        | nil => rfl
        | cons c cs => exact absurd hsplit (by simp)
      subst hpre
      exact hlen
  | cons c cs ih =>
    intro r segs tailg hsegs htail hquiet hlen heq
    have heqB : (r ++ c) ++ cs.flatten = streamBytes segs tailg := by
      rw [← heq]
      simp
    obtain ⟨j, segs₂, tailg₂, e1, e2, e3, e4, e5, e6, e7⟩ :=
      processBuffer_consume segs tailg (r ++ c) cs.flatten hsegs htail heqB
    obtain ⟨f1, f2⟩ := ih (processBuffer (r ++ c)).2 segs₂ tailg₂ e3 e4 e6 e7 e5
    constructor
    · show (processBuffer (r ++ c)).1 ++ (feedChunks (processBuffer (r ++ c)).2 cs).1 =
        segs.map (fun s => s.2.event)
      rw [e1, f1, e2]
      rw [← List.map_append, List.take_append_drop]
    · intro pre post hsplit
      cases pre with
      | nil => exact hlen
      | cons c' pre' =>
        injection hsplit with h1 h2
        subst h1
        show ((feedChunks (processBuffer (r ++ c)).2 pre').2).length ≤ 1537
        exact f2 pre' post h2

/-- C6 (amended): for every byte stream formed by interleaving garbage
bytes — none of which is 0xCA or a text-start byte 0x62 ('b') / 0x64
('d') — between (not inside) well-formed frames, and every way of
splitting that stream into chunks, running `processBuffer` after each
chunk dispatches exactly the well-formed frames' events, in their
original order, and the accumulated buffer's size after every call stays
bounded by the constant 1537, independent of the total input length.
(The model is total, so no run can throw.) -/
theorem C6_demux_robustness_amended (segs : List (List Nat × WireFrame)) (tailg : List Nat)
    (chunks : List (List Nat)) (hsegs : SegsOK segs) (htail : Garbage tailg)
    (hjoin : chunks.flatten = streamBytes segs tailg) :
    (feedChunks [] chunks).1 = segs.map (fun s => s.2.event) ∧
    ∀ pre post, chunks = pre ++ post → ((feedChunks [] pre).2).length ≤ 1537 :=
  feedChunks_stream chunks [] segs tailg hsegs htail rfl (by simp)
    (by simpa using hjoin)

/-- The witness stream: one garbage byte, a `btn:2` line split across two
chunks mid-frame, and one byte of trailing garbage. -/
def c6wSegs : List (List Nat × WireFrame) := [([0x00], WireFrame.btn 2)]

def c6wChunks : List (List Nat) := [[0x00, 0x62, 0x74], [0x6e, 0x3a, 0x32, 0x0a, 0x05]]

theorem C6_demux_robustness_amended_witness :
    (feedChunks [] c6wChunks).1 = [SerialEvent.button 2] ∧
    ∀ pre post, c6wChunks = pre ++ post → ((feedChunks [] pre).2).length ≤ 1537 := by
  have hsegs : SegsOK c6wSegs := by
    intro s hs
    simp only [c6wSegs, List.mem_singleton] at hs
    subst hs
    refine ⟨?_, ?_⟩
    · intro b hb
      simp at hb
      subst hb
      exact ⟨by decide, by decide, by decide⟩
    · exact (by decide : (2 : Nat) ≤ 9)
  have htail : Garbage [0x05] := by
    intro b hb
    simp at hb
    subst hb
    exact ⟨by decide, by decide, by decide⟩
  have h := C6_demux_robustness_amended c6wSegs [0x05] c6wChunks hsegs htail (by decide)
  exact ⟨by rw [h.1]; decide, h.2⟩

/-! ### Device-side audio packet assembler (lib-02-audio.ino `audioProcessSample`) -/

/-- `p & 0xFF` on an `int16_t` (two's-complement low byte). -/
def int16LoByte (p : Int) : Nat := (p.emod 256).toNat

/-- `(p >> 8) & 0xFF` on an `int16_t` (arithmetic shift, then low byte). -/
def int16HiByte (p : Int) : Nat := ((p.ediv 256).emod 256).toNat

/-- The device encoder's mutable globals (lib-02-audio.ino lines 22-48):
`adpcmPredicted`/`adpcmIndex` (the codec state), `audioSampleIndex` (count
of packed ADPCM data bytes so far this packet), `audioSequenceNumber`,
`audioCurrentByte`, `audioHighNibble`, and the packet-start codec-state
capture `audioPacketStartPredicted`/`audioPacketStartIndex`.  `txData`
models the ADPCM data region `audioTxBuffer[7..7+audioSampleIndex)`
written so far for the current packet. -/
structure EncState where
  adpcm : AdpcmState
  sampleIndex : Nat
  seqNum : Nat
  currentByte : Nat
  highNibble : Bool
  packetStartPredicted : Int
  packetStartIndex : Int
  txData : List Nat
  deriving Repr, DecidableEq

/-- `audioResetState` (lib-02-audio.ino lines 99-107). -/
def encResetState : EncState := ⟨⟨0, 0⟩, 0, 0, 0, false, 0, 0, []⟩

/-- `audioProcessSample` (lib-02-audio.ino lines 114-161).  Returns
`some packet` (the full 66-byte serial write `0xCA 0x02` + 64-byte ADPCM
packet) when the call sends a packet, `none` otherwise, together with the
updated globals. -/
def audioProcessSample (s : EncState) (sample : Int) : Option (List Nat) × EncState :=
  let pp := if s.sampleIndex = 0 ∧ s.highNibble = false then s.adpcm.predicted
            else s.packetStartPredicted
  let pi := if s.sampleIndex = 0 ∧ s.highNibble = false then s.adpcm.index
            else s.packetStartIndex
  let r := encodeADPCMSample s.adpcm sample
  if s.highNibble = false then
    (none, ⟨r.2, s.sampleIndex, s.seqNum, r.1, true, pp, pi, s.txData⟩)
  else
    let byte := s.currentByte ||| (r.1 <<< 4)
    if s.sampleIndex + 1 ≥ 59 then
      (some ([0xCA, 0x02, s.seqNum % 256, s.seqNum / 256 % 256,
              int16LoByte pp, int16HiByte pp, (pi.emod 256).toNat]
             ++ (s.txData ++ [byte])),
       ⟨r.2, 0, (s.seqNum + 1) % 65536, byte, false, pp, pi, []⟩)
    else
      (none, ⟨r.2, s.sampleIndex + 1, s.seqNum, byte, false, pp, pi, s.txData ++ [byte]⟩)

/-- Feed a list of samples to `audioProcessSample`, collecting the emitted
packets in order. -/
def runEncoder : EncState → List Int → List (List Nat) × EncState
  | s, [] => ([], s)
  | s, x :: xs =>
    match audioProcessSample s x with
    | (none, s') => runEncoder s' xs
    | (some p, s') => (p :: (runEncoder s' xs).1, (runEncoder s' xs).2)

/-! Reference (spec-side) description of the emitted packets, written from
the AudioPacket section of the spec: nibble stream of the block, packed
two samples per byte low nibble first, behind a header carrying the
sequence number (little-endian, wrapping at 65536) and the codec state
from before the block's first sample. -/

/-- Run the nibble encoder over a sample sequence. -/
def adpcmEncodeSeq : AdpcmState → List Int → List Nat × AdpcmState
  | s, [] => ([], s)
  | s, x :: xs =>
    ((encodeADPCMSample s x).1 :: (adpcmEncodeSeq (encodeADPCMSample s x).2 xs).1,
     (adpcmEncodeSeq (encodeADPCMSample s x).2 xs).2)

/-- Pack a nibble stream two-per-byte, low nibble first. -/
def packNibblesLow : List Nat → List Nat
  | lo :: hi :: rest => (lo ||| (hi <<< 4)) :: packNibblesLow rest
  | _ => []

/-- Header bytes of an emitted packet: protocol marker, sequence number
(little-endian) and pre-block codec state. -/
def hdrBytes (q : Nat) (pp pi : Int) : List Nat :=
  [0xCA, 0x02, q % 256, q / 256 % 256, int16LoByte pp, int16HiByte pp, (pi.emod 256).toNat]

/-- The packet the spec prescribes for a 118-sample block encoded from
codec state `a` under sequence number `q`. -/
def expectedPacket (a : AdpcmState) (q : Nat) (block : List Int) : List Nat :=
  hdrBytes q a.predicted a.index ++ packNibblesLow (adpcmEncodeSeq a block).1

/-- The full packet sequence the spec prescribes for a sample stream:
one packet per complete 118-sample block, sequence numbers rising by one
modulo 65536, each block encoded from the codec state the previous blocks
left behind. -/
def specPacketsFuel : Nat → AdpcmState → Nat → List Int → List (List Nat)
  | 0, _, _, _ => []
  | fuel + 1, a, q, samples =>
    if 118 ≤ samples.length then
      expectedPacket a q (samples.take 118) ::
        specPacketsFuel fuel (adpcmEncodeSeq a (samples.take 118)).2 ((q + 1) % 65536)
          (samples.drop 118)
    else []

def specPackets (a : AdpcmState) (q : Nat) (samples : List Int) : List (List Nat) :=
  specPacketsFuel samples.length a q samples

theorem audioProcessSample_low0 (a : AdpcmState) (q cb : Nat) (pp pi : Int) (tx : List Nat)
    (x : Int) :
    audioProcessSample ⟨a, 0, q, cb, false, pp, pi, tx⟩ x
      = (none, ⟨(encodeADPCMSample a x).2, 0, q, (encodeADPCMSample a x).1, true,
          a.predicted, a.index, tx⟩) := rfl

theorem audioProcessSample_low (a : AdpcmState) (j q cb : Nat) (pp pi : Int) (tx : List Nat)
    (x : Int) (hj : j ≠ 0) :
    audioProcessSample ⟨a, j, q, cb, false, pp, pi, tx⟩ x
      = (none, ⟨(encodeADPCMSample a x).2, j, q, (encodeADPCMSample a x).1, true,
          pp, pi, tx⟩) := by
  have h1 : ¬ (j = 0 ∧ True) := fun hc => hj hc.1
  simp only [audioProcessSample]
  rw [if_pos trivial, if_neg h1, if_neg h1]

theorem audioProcessSample_high_mid (a : AdpcmState) (j q cb : Nat) (pp pi : Int)
    (tx : List Nat) (x : Int) (hlt : j + 1 < 59) :
    audioProcessSample ⟨a, j, q, cb, true, pp, pi, tx⟩ x
      = (none, ⟨(encodeADPCMSample a x).2, j + 1, q, cb ||| ((encodeADPCMSample a x).1 <<< 4),
          false, pp, pi, tx ++ [cb ||| ((encodeADPCMSample a x).1 <<< 4)]⟩) := by
  have h1 : ¬ (j = 0 ∧ (true : Bool) = false) := fun hc => absurd hc.2 (by decide)
  have h2 : ¬ ((true : Bool) = false) := by decide
  have h3 : ¬ (j + 1 ≥ 59) := by omega
  simp only [audioProcessSample]
  rw [if_neg h2, if_neg h3, if_neg h1, if_neg h1]

theorem audioProcessSample_high_emit (a : AdpcmState) (q cb : Nat) (pp pi : Int)
    (tx : List Nat) (x : Int) :
    audioProcessSample ⟨a, 58, q, cb, true, pp, pi, tx⟩ x
      = (some ([0xCA, 0x02, q % 256, q / 256 % 256,
              int16LoByte pp, int16HiByte pp, (pi.emod 256).toNat]
             ++ (tx ++ [cb ||| ((encodeADPCMSample a x).1 <<< 4)])),
         ⟨(encodeADPCMSample a x).2, 0, (q + 1) % 65536,
          cb ||| ((encodeADPCMSample a x).1 <<< 4), false, pp, pi, []⟩) := rfl

theorem runEncoder_cons_none (s : EncState) (x : Int) (xs : List Int) (s' : EncState)
    (h : audioProcessSample s x = (none, s')) :
    runEncoder s (x :: xs) = runEncoder s' xs := by
  simp only [runEncoder]
  rw [h]

theorem runEncoder_cons_some (s : EncState) (x : Int) (xs : List Int) (p : List Nat)
    (s' : EncState) (h : audioProcessSample s x = (some p, s')) :
    runEncoder s (x :: xs) = (p :: (runEncoder s' xs).1, (runEncoder s' xs).2) := by
  simp only [runEncoder]
  rw [h]

theorem adpcmEncodeSeq_append (u : List Int) : ∀ (a : AdpcmState) (v : List Int),
    adpcmEncodeSeq a (u ++ v)
      = ((adpcmEncodeSeq a u).1 ++ (adpcmEncodeSeq (adpcmEncodeSeq a u).2 v).1,
         (adpcmEncodeSeq (adpcmEncodeSeq a u).2 v).2) := by
  induction u with
  | nil => intro a v; rfl
  | cons x xs ih =>
    intro a v
    simp only [List.cons_append, adpcmEncodeSeq, List.append_eq,
      ih (encodeADPCMSample a x).2 v, List.cons_append]

/-- Mid-block invariant: from a state holding `j ≥ 1` packed bytes with no
pending nibble, feeding the remaining `2 * m` samples of the block
(`j + m = 59`) emits exactly the one packet that closes the block —
header from the captured pre-block codec state, data `tx` plus the packed
nibbles of the fed samples — and leaves the machine packet-aligned. -/
theorem runEncoder_mid : ∀ (m : Nat) (bs rest : List Int) (a : AdpcmState) (j q cb : Nat)
    (pp pi : Int) (tx : List Nat),
    bs.length = 2 * m → j + m = 59 → 1 ≤ j → 1 ≤ m →
    ∃ cb', runEncoder ⟨a, j, q, cb, false, pp, pi, tx⟩ (bs ++ rest)
      = ((hdrBytes q pp pi ++ (tx ++ packNibblesLow (adpcmEncodeSeq a bs).1)) ::
           (runEncoder ⟨(adpcmEncodeSeq a bs).2, 0, (q + 1) % 65536, cb', false, pp, pi, []⟩
             rest).1,
         (runEncoder ⟨(adpcmEncodeSeq a bs).2, 0, (q + 1) % 65536, cb', false, pp, pi, []⟩
           rest).2) := by
  intro m
  induction m with
  | zero => intro bs rest a j q cb pp pi tx h1 h2 h3 h4; omega
  | succ m ih =>
    intro bs rest a j q cb pp pi tx h1 h2 h3 h4
    match bs, h1 with
    | x :: y :: bs', h1 =>
      have hbs' : bs'.length = 2 * m := by
        simp only [List.length_cons] at h1; omega
      rcases Nat.eq_zero_or_pos m with hm | hm
      · -- last pair of the block: j = 58, bs' = []
        subst hm
        have hj58 : j = 58 := by omega
        subst hj58
        have hbs'nil : bs' = [] := List.eq_nil_of_length_eq_zero (by omega)
        subst hbs'nil
        refine ⟨(encodeADPCMSample a x).1
            ||| ((encodeADPCMSample (encodeADPCMSample a x).2 y).1 <<< 4), ?_⟩
        rw [show ([x, y] ++ rest : List Int) = x :: y :: rest from rfl]
        rw [runEncoder_cons_none _ x _ _ (audioProcessSample_low a 58 q cb pp pi tx x
          (by omega))]
        rw [runEncoder_cons_some _ y _ _ _ (audioProcessSample_high_emit
          (encodeADPCMSample a x).2 q (encodeADPCMSample a x).1 pp pi tx y)]
        rfl
      · -- interior pair: pack one byte and recurse
        have hstep1 := audioProcessSample_low a j q cb pp pi tx x (by omega)
        have hstep2 := audioProcessSample_high_mid (encodeADPCMSample a x).2 j q
          (encodeADPCMSample a x).1 pp pi tx y (by omega)
        obtain ⟨cb', hrec⟩ := ih bs' rest (encodeADPCMSample (encodeADPCMSample a x).2 y).2
          (j + 1) q ((encodeADPCMSample a x).1
            ||| ((encodeADPCMSample (encodeADPCMSample a x).2 y).1 <<< 4))
          pp pi (tx ++ [(encodeADPCMSample a x).1
            ||| ((encodeADPCMSample (encodeADPCMSample a x).2 y).1 <<< 4)])
          hbs' (by omega) (by omega) hm
        refine ⟨cb', ?_⟩
        rw [show ((x :: y :: bs') ++ rest : List Int) = x :: y :: (bs' ++ rest) from rfl]
        rw [runEncoder_cons_none _ x _ _ hstep1]
        rw [runEncoder_cons_none _ y _ _ hstep2]
        rw [hrec]
        simp only [adpcmEncodeSeq, packNibblesLow, List.append_assoc, List.cons_append,
          List.nil_append, List.singleton_append]

/-- One complete 118-sample block from a packet-aligned state emits
exactly `expectedPacket`: the first call captures the pre-block codec
state into the header fields, and the machine returns to a packet-aligned
state with the sequence number advanced by one modulo 65536. -/
theorem runEncoder_block (a : AdpcmState) (q cb : Nat) (pp pi : Int) (block rest : List Int)
    (hb : block.length = 118) :
    ∃ cb', runEncoder ⟨a, 0, q, cb, false, pp, pi, []⟩ (block ++ rest)
      = (expectedPacket a q block ::
           (runEncoder ⟨(adpcmEncodeSeq a block).2, 0, (q + 1) % 65536, cb', false,
             a.predicted, a.index, []⟩ rest).1,
         (runEncoder ⟨(adpcmEncodeSeq a block).2, 0, (q + 1) % 65536, cb', false,
           a.predicted, a.index, []⟩ rest).2) := by
  match block, hb with
  | x :: y :: blk', hb =>
    have hblk' : blk'.length = 2 * 58 := by
      simp only [List.length_cons] at hb; omega
    have hstep1 := audioProcessSample_low0 a q cb pp pi [] x
    have hstep2 := audioProcessSample_high_mid (encodeADPCMSample a x).2 0 q
      (encodeADPCMSample a x).1 a.predicted a.index [] y (by omega)
    obtain ⟨cb', hrec⟩ := runEncoder_mid 58 blk' rest
      (encodeADPCMSample (encodeADPCMSample a x).2 y).2 1 q
      ((encodeADPCMSample a x).1 ||| ((encodeADPCMSample (encodeADPCMSample a x).2 y).1 <<< 4))
      a.predicted a.index
      [(encodeADPCMSample a x).1 ||| ((encodeADPCMSample (encodeADPCMSample a x).2 y).1 <<< 4)]
      hblk' (by omega) (by omega) (by omega)
    refine ⟨cb', ?_⟩
    rw [show ((x :: y :: blk') ++ rest : List Int) = x :: y :: (blk' ++ rest) from rfl]
    rw [runEncoder_cons_none _ x _ _ hstep1]
    rw [runEncoder_cons_none _ y _ _ (by simpa using hstep2)]
    rw [hrec]
    simp only [expectedPacket, hdrBytes, adpcmEncodeSeq, packNibblesLow,
      List.singleton_append, List.cons_append, List.nil_append, List.append_assoc]

/-- Fewer nibbles than a full block never reach the 59-byte send
threshold: no packet is emitted. -/
theorem runEncoder_short : ∀ (samples : List Int) (a : AdpcmState) (j q cb : Nat) (hn : Bool)
    (pp pi : Int) (tx : List Nat),
    2 * j + (if hn then 1 else 0) + samples.length < 118 →
    (runEncoder ⟨a, j, q, cb, hn, pp, pi, tx⟩ samples).1 = [] := by
  intro samples
  induction samples with
  | nil => intro a j q cb hn pp pi tx h; rfl
  | cons x xs ih =>
    intro a j q cb hn pp pi tx h
    simp only [List.length_cons] at h
    cases hn with
    | false =>
      rcases Nat.eq_zero_or_pos j with hj | hj
      · subst hj
        rw [runEncoder_cons_none _ x _ _ (audioProcessSample_low0 a q cb pp pi tx x)]
        exact ih _ 0 q _ true _ _ tx (by simp at h ⊢; omega)
      · rw [runEncoder_cons_none _ x _ _ (audioProcessSample_low a j q cb pp pi tx x
          (by omega))]
        exact ih _ j q _ true _ _ tx (by simp at h ⊢; omega)
    | true =>
      rw [runEncoder_cons_none _ x _ _ (audioProcessSample_high_mid a j q cb pp pi tx x
        (by simp at h; omega))]
      exact ih _ (j + 1) q _ false _ _ _ (by simp at h ⊢; omega)

/-- The device packet assembler refines the spec-side packet sequence:
from a packet-aligned state, the packets emitted for a sample stream are
exactly `specPacketsFuel` (one per complete 118-sample block). -/
theorem runEncoder_spec : ∀ (fuel : Nat) (samples : List Int) (a : AdpcmState) (q cb : Nat)
    (pp pi : Int), samples.length ≤ fuel →
    (runEncoder ⟨a, 0, q, cb, false, pp, pi, []⟩ samples).1 = specPacketsFuel fuel a q samples := by
  intro fuel
  induction fuel with
  | zero =>
    intro samples a q cb pp pi hlen
    have hnil : samples = [] := List.eq_nil_of_length_eq_zero (by omega)
    subst hnil
    rfl
  | succ fuel ih =>
    intro samples a q cb pp pi hlen
    by_cases h118 : 118 ≤ samples.length
    · have hsplit : samples = samples.take 118 ++ samples.drop 118 :=
        (List.take_append_drop _ _).symm
      obtain ⟨cb', heq⟩ := runEncoder_block a q cb pp pi (samples.take 118)
        (samples.drop 118) (by rw [List.length_take]; omega)
      conv_lhs => rw [hsplit, heq]
      show expectedPacket a q (samples.take 118) ::
          (runEncoder ⟨(adpcmEncodeSeq a (samples.take 118)).2, 0, (q + 1) % 65536, cb', false,
            a.predicted, a.index, []⟩ (samples.drop 118)).1
        = specPacketsFuel (fuel + 1) a q samples
      rw [ih (samples.drop 118) (adpcmEncodeSeq a (samples.take 118)).2 ((q + 1) % 65536) cb'
        a.predicted a.index (by rw [List.length_drop]; omega)]
      simp only [specPacketsFuel]
      rw [if_pos h118]
    · rw [runEncoder_short samples a 0 q cb false pp pi [] (by simp; omega)]
      simp only [specPacketsFuel]
      rw [if_neg h118]

theorem specPacketsFuel_length : ∀ (fuel : Nat) (samples : List Int) (a : AdpcmState) (q : Nat),
    samples.length ≤ fuel →
    (specPacketsFuel fuel a q samples).length = samples.length / 118 := by
  intro fuel
  induction fuel with
  | zero =>
    intro samples a q hlen
    have hnil : samples.length = 0 := by omega
    simp only [specPacketsFuel, List.length_nil, hnil]
  | succ fuel ih =>
    intro samples a q hlen
    by_cases h118 : 118 ≤ samples.length
    · simp only [specPacketsFuel]
      rw [if_pos h118]
      simp only [List.length_cons]
      rw [ih (samples.drop 118) _ _ (by rw [List.length_drop]; omega)]
      rw [List.length_drop]
      omega
    · simp only [specPacketsFuel]
      rw [if_neg h118]
      simp only [List.length_nil]
      omega

theorem specPacketsFuel_getD : ∀ (fuel : Nat) (samples : List Int) (a : AdpcmState) (q : Nat),
    samples.length ≤ fuel → q < 65536 →
    ∀ k, k < (specPacketsFuel fuel a q samples).length →
    (specPacketsFuel fuel a q samples).getD k []
      = expectedPacket (adpcmEncodeSeq a (samples.take (118 * k))).2 ((q + k) % 65536)
          ((samples.drop (118 * k)).take 118) := by
  intro fuel
  induction fuel with
  | zero =>
    intro samples a q hlen hq k hk
    simp only [specPacketsFuel, List.length_nil] at hk
    omega
  | succ fuel ih =>
    intro samples a q hlen hq k hk
    by_cases h118 : 118 ≤ samples.length
    · simp only [specPacketsFuel] at hk ⊢
      rw [if_pos h118] at hk ⊢
      cases k with
      | zero =>
        simp only [List.getD_cons_zero, Nat.mul_zero, List.take_zero, List.drop_zero]
        rw [Nat.add_zero, Nat.mod_eq_of_lt hq]
        rfl
      | succ k =>
        simp only [List.getD_cons_succ]
        simp only [List.length_cons] at hk
        rw [ih (samples.drop 118) (adpcmEncodeSeq a (samples.take 118)).2 ((q + 1) % 65536)
          (by rw [List.length_drop]; omega) (Nat.mod_lt _ (by omega)) k (by omega)]
        have e1 : 118 * (k + 1) = 118 + 118 * k := by ring
        have e2 : samples.take (118 * (k + 1))
            = samples.take 118 ++ (samples.drop 118).take (118 * k) := by
          rw [e1, List.take_add]
        have e3 : (samples.drop 118).drop (118 * k) = samples.drop (118 * (k + 1)) := by
          rw [List.drop_drop]
          rw [show 118 + 118 * k = 118 * (k + 1) from by ring]
        have e4 : ((q + 1) % 65536 + k) % 65536 = (q + (k + 1)) % 65536 := by omega
        rw [e2, adpcmEncodeSeq_append, e3, e4]
    · simp only [specPacketsFuel] at hk
      rw [if_neg h118] at hk
      simp only [List.length_nil] at hk
      omega

/-- C8: audio packet assembly invariant.  The model's
`audioProcessSample` returns at most one packet per call by type
(`Option (List Nat)`), and a full run from `audioResetState` emits
exactly one packet per 118 consecutive input samples: the emitted packet
list equals the spec-side `specPackets` (one packet per complete block,
59 data bytes packing the block's nibbles two per byte low nibble first);
its length is `samples.length / 118`; and the `k`-th packet carries
sequence number `k % 65536` (little-endian, consecutive packets differing
by 1 modulo 65536) and header `predictor`/`stepIndex` equal to the
encoder's codec state immediately before the block's first sample, i.e.
the state after encoding the first `118 * k` samples, followed by the
packed nibbles of samples `118 * k` to `118 * (k + 1) - 1`. -/
theorem C8_audio_packet_assembly (samples : List Int) :
    (runEncoder encResetState samples).1 = specPackets ⟨0, 0⟩ 0 samples ∧
    ((runEncoder encResetState samples).1).length = samples.length / 118 ∧
    ∀ k, k < ((runEncoder encResetState samples).1).length →
      ((runEncoder encResetState samples).1).getD k []
        = expectedPacket (adpcmEncodeSeq ⟨0, 0⟩ (samples.take (118 * k))).2 (k % 65536)
            ((samples.drop (118 * k)).take 118) := by
  have h1 : (runEncoder encResetState samples).1
      = specPacketsFuel samples.length ⟨0, 0⟩ 0 samples :=
    runEncoder_spec samples.length samples ⟨0, 0⟩ 0 0 0 0 le_rfl
  refine ⟨h1, ?_, ?_⟩
  · rw [h1]
    exact specPacketsFuel_length samples.length samples ⟨0, 0⟩ 0 le_rfl
  · intro k hk
    rw [h1] at hk ⊢
    have h2 := specPacketsFuel_getD samples.length samples ⟨0, 0⟩ 0 le_rfl (by omega) k hk
    simpa using h2

theorem C8_audio_packet_assembly_witness :
    0 < ((runEncoder encResetState (List.replicate 118 (0 : Int))).1).length ∧
    ((runEncoder encResetState (List.replicate 118 (0 : Int))).1).getD 0 []
      = expectedPacket (adpcmEncodeSeq ⟨0, 0⟩ ((List.replicate 118 (0 : Int)).take (118 * 0))).2
          (0 % 65536) (((List.replicate 118 (0 : Int)).drop (118 * 0)).take 118) :=
  ⟨by decide, (C8_audio_packet_assembly (List.replicate 118 0)).2.2 0 (by decide)⟩
